import Mathlib

/-!
# OpenHydrology — verification of the chunk-processing pipeline

Shallow embedding of the multi-stage chunk-processing pipeline of the
OpenHydrology repository (`src/models.py`, `src/skills/base.py`,
`src/skills/cleaner.py`, `src/skills/enhancer.py`, `src/skills/evaluator.py`,
`src/skills/pipeline.py`) and proofs about it.

Modelling conventions:
* Python strings are `List Char`; machine floats are modelled as `ℚ`
  (all arithmetic in the scored paths is exact decimal arithmetic).
* Python regular-expression substitution (`re.sub`) is modelled by a generic
  scanning engine `pySub` parameterised by a per-position matcher; each of the
  repository's fixed patterns is translated into such a matcher.
* `\s`, `str.lower`, `str.strip` are modelled on the ASCII range (the
  repository's texts mix CJK ideographs — unaffected by either — with ASCII).
* The optional NLP engines (`jieba`, `spacy`, `transformers`, `sklearn`) are
  modelled as absent, matching the import-guarded fallbacks in the source:
  every guarded branch is then the documented graceful no-op.
* MD5 content hashing (`hashlib.md5(...).hexdigest()`) is idealised as the
  injective map from a text to itself: hash equality is content equality.
* Wall-clock fields (timestamps, durations) and logging are omitted.
-/

namespace OpenHydro

/-- Python text, modelled as a list of characters. -/
abbrev Text := List Char

/-- ASCII whitespace, the model of Python's `\s` / `str.strip` class. -/
def isPySpace (c : Char) : Bool :=
  c = ' ' || c = '\t' || c = '\n' || c = '\r' || c = '\x0b' || c = '\x0c'

/-- CJK unified ideographs `一`–`鿿`, the repository's test for
"Chinese characters" (`_contains_chinese`). -/
def isCJK (c : Char) : Bool :=
  0x4e00 ≤ c.toNat && c.toNat ≤ 0x9fff

/-- `[a-zA-Z]`. -/
def isAsciiLetter (c : Char) : Bool :=
  ('a' ≤ c && c ≤ 'z') || ('A' ≤ c && c ≤ 'Z')

/-- `[0-9]` (`\d` on the ASCII range). -/
def isAsciiDigit (c : Char) : Bool :=
  '0' ≤ c && c ≤ '9'

/-- Python word characters `\w` as used on this repository's data:
ASCII alphanumerics, underscore, and CJK ideographs. -/
def isWordChar (c : Char) : Bool :=
  isAsciiLetter c || isAsciiDigit c || c = '_' || isCJK c

/-- ASCII model of Python's `str.lower` applied character-wise. -/
def pyLower (c : Char) : Char :=
  if 'A' ≤ c && c ≤ 'Z' then Char.ofNat (c.toNat + 32) else c

/-- `str.lower` on a whole text. -/
def lowerText (t : Text) : Text := t.map pyLower

/-- `str.strip()`: remove leading and trailing whitespace. -/
def pyStrip (t : Text) : Text :=
  ((t.dropWhile isPySpace).reverse.dropWhile isPySpace).reverse

/-- `_contains_chinese` (`cleaner.py`, `enhancer.py`): whether the text has a
character in the CJK unified-ideograph block. -/
def containsChinese (t : Text) : Bool := t.any isCJK

/-- Python `needle in haystack` on strings: substring containment. -/
def pyContains (haystack needle : Text) : Bool := decide (needle <:+: haystack)

/-!
## A scanning engine for the repository's fixed regular expressions

`re.sub(pattern, repl, s)` scans `s` left to right; at each position it tries
to match `pattern`; on a match it emits the replacement and resumes after the
match, otherwise it emits the character and moves one position right.  A
`Matcher` receives the character just before the current position (for the
`\b` anchors of the e-mail pattern) and the remaining input, and returns
`(replacement, consumed, rest)` on a match; it must consume at least one
character.  Recursion is by fuel, initialised to the input length, which a
one-character-minimum consumption can never exhaust.
-/

/-- A per-position match attempt: previous char, remaining input ↦
(replacement, consumed text, rest). -/
abbrev Matcher := Option Char → Text → Option (Text × Text × Text)

/-- Fuel-driven scan performing one `re.sub` pass with the given matcher. -/
def pySubAux (m : Matcher) : Nat → Option Char → Text → Text
  | 0, _, l => l
  | _ + 1, _, [] => []
  | fuel + 1, prev, c :: cs =>
    match m prev (c :: cs) with
    | some (repl, consumed, rest) =>
        repl ++ pySubAux m fuel (consumed.getLast?) rest
    | none => c :: pySubAux m fuel (some c) cs

/-- One `re.sub` pass over a whole text. -/
def pySub (m : Matcher) (l : Text) : Text :=
  pySubAux m l.length none l

/-- Fuel-driven scan collecting all non-overlapping matches (`re.findall`). -/
def pyFindallAux (m : Matcher) : Nat → Option Char → Text → List Text
  | 0, _, _ => []
  | _ + 1, _, [] => []
  | fuel + 1, prev, c :: cs =>
    match m prev (c :: cs) with
    | some (_, consumed, rest) =>
        consumed :: pyFindallAux m fuel (consumed.getLast?) rest
    | none => pyFindallAux m fuel (some c) cs

/-- `re.findall` for one of the fixed patterns. -/
def pyFindall (m : Matcher) (l : Text) : List Text :=
  pyFindallAux m l.length none l

/-- `re.search(...) is not None` for one of the fixed patterns: does the
pattern match at some position? -/
def pySearch (m : Matcher) (l : Text) : Bool :=
  ¬ (pyFindall m l).isEmpty

/-- Fuel-driven non-overlapping literal replacement (`str.replace`). -/
def pyReplaceAux (pat repl : Text) : Nat → Text → Text
  | 0, l => l
  | _ + 1, [] => []
  | fuel + 1, c :: cs =>
    if pat ≠ [] ∧ pat.isPrefixOf (c :: cs) then
      repl ++ pyReplaceAux pat repl fuel ((c :: cs).drop pat.length)
    else
      c :: pyReplaceAux pat repl fuel cs

/-- `str.replace(pat, repl)`: replace every non-overlapping occurrence. -/
def pyReplace (pat repl : Text) (l : Text) : Text :=
  pyReplaceAux pat repl l.length l

/-!
## Matchers for the fixed patterns of `cleaner.py`
-/

/-- `\s+` → a single space (first entry of `cleanup_patterns`). -/
def wsMatcher : Matcher := fun _ l =>
  match l with
  | c :: cs =>
    if isPySpace c then some ([' '], c :: cs.takeWhile isPySpace, cs.dropWhile isPySpace)
    else none
  | [] => none

/-- `\n+` → a single newline. -/
def nlMatcher : Matcher := fun _ l =>
  match l with
  | c :: cs =>
    if c = '\n' then some (['\n'], c :: cs.takeWhile (· = '\n'), cs.dropWhile (· = '\n'))
    else none
  | [] => none

/-- `<[^>]+>` → removed (HTML tags). -/
def tagMatcher : Matcher := fun _ l =>
  match l with
  | c :: cs =>
    if c = '<' then
      let body := cs.takeWhile (· ≠ '>')
      match cs.dropWhile (· ≠ '>') with
      | g :: r => if body ≠ [] ∧ g = '>' then some ([], '<' :: body ++ ['>'], r) else none
      | [] => none
    else none
  | [] => none

/-- The character class of the URL pattern after `http[s]?://`:
`[a-zA-Z]|[0-9]|[$-_@.&+]|[!*\\(\\),]|%hh`, whose union (with the
`re.IGNORECASE` flag of `_basic_text_cleaning`) is the ASCII range `$`–`_`,
the lowercase letters, and `!`. -/
def isUrlChar (c : Char) : Bool :=
  ('a' ≤ c && c ≤ 'z') || ('$' ≤ c && c ≤ '_') || c = '!'

/-- Body of the URL matcher after the scheme prefix. -/
def urlTail (pre : Text) (r : Text) : Option (Text × Text × Text) :=
  match r with
  | ':' :: '/' :: '/' :: r2 =>
    let run := r2.takeWhile isUrlChar
    if run ≠ [] then
      some ([], pre ++ ':' :: '/' :: '/' :: run, r2.dropWhile isUrlChar)
    else none
  | _ => none

/-- `http[s]?://(...)+` → removed (URLs); `http` is matched case-insensitively
because `_basic_text_cleaning` passes `re.IGNORECASE`. -/
def urlMatcher : Matcher := fun _ l =>
  match l with
  | c1 :: c2 :: c3 :: c4 :: rest =>
    if pyLower c1 = 'h' ∧ pyLower c2 = 't' ∧ pyLower c3 = 't' ∧ pyLower c4 = 'p' then
      match rest with
      | s :: r1 =>
        if pyLower s = 's' then urlTail [c1, c2, c3, c4, s] r1
        else urlTail [c1, c2, c3, c4] rest
      | [] => none
    else none
  | _ => none

/-- `[A-Za-z0-9._%+-]`, the local part of the e-mail pattern. -/
def isLocalChar (c : Char) : Bool :=
  isAsciiLetter c || isAsciiDigit c || c = '.' || c = '_' || c = '%' || c = '+' || c = '-'

/-- `[A-Za-z0-9.-]`, the domain part of the e-mail pattern. -/
def isDomainChar (c : Char) : Bool :=
  isAsciiLetter c || isAsciiDigit c || c = '.' || c = '-'

/-- Backtracking search for `\.[A-Z|a-z]{2,}\b` inside the maximal
domain-character run: try the rightmost dot first (the greedy preference of
`[A-Za-z0-9.-]+`), accepting a dot followed by at least two letters whose
maximal letter run ends at a word boundary.  Returns the matched domain text
and the unconsumed remainder of the run. -/
def emailTrySplit (run rest : Text) : Nat → Option (Text × Text)
  | 0 => none
  | k + 1 =>
    if run.getD k ' ' = '.' then
      let tld := (run.drop (k + 1)).takeWhile isAsciiLetter
      let after := (run.drop (k + 1)).dropWhile isAsciiLetter
      let boundaryOk : Bool :=
        match after with
        | c :: _ => ! isWordChar c
        | [] =>
          match rest with
          | c :: _ => ! isWordChar c
          | [] => true
      if k ≠ 0 ∧ 2 ≤ tld.length ∧ boundaryOk then
        some (run.take k ++ '.' :: tld, after)
      else emailTrySplit run rest k
    else emailTrySplit run rest k

/-- `\b[A-Za-z0-9._%+-]+@[A-Za-z0-9.-]+\.[A-Z|a-z]{2,}\b` → removed
(e-mail addresses).  The leading `\b` is checked against the character
preceding the current position. -/
def emailMatcher : Matcher := fun prev l =>
  match l with
  | c :: _ =>
    let prevWord := match prev with | some p => isWordChar p | none => false
    if isLocalChar c && (prevWord ≠ isWordChar c) then
      let localRun := l.takeWhile isLocalChar
      match l.dropWhile isLocalChar with
      | '@' :: afterAt =>
        let run := afterAt.takeWhile isDomainChar
        let rest := afterAt.dropWhile isDomainChar
        match emailTrySplit run rest run.length with
        | some (dom, leftover) =>
            some ([], localRun ++ '@' :: dom, leftover ++ rest)
        | none => none
      | _ => none
    else none
  | [] => none

/-- `[.!?]{3,}` → `...`. -/
def ellipsisMatcher : Matcher := fun _ l =>
  match l with
  | c :: cs =>
    let isEnd : Char → Bool := fun x => x = '.' || x = '!' || x = '?'
    if isEnd c then
      let run := c :: cs.takeWhile isEnd
      if 3 ≤ run.length then some (['.', '.', '.'], run, cs.dropWhile isEnd)
      else none
    else none
  | [] => none

/-- `(\d)([a-zA-Z])` → `\1 \2`: insert a space between a digit and a letter. -/
def digitLetterMatcher : Matcher := fun _ l =>
  match l with
  | c1 :: c2 :: rest =>
    if isAsciiDigit c1 && isAsciiLetter c2 then some ([c1, ' ', c2], [c1, c2], rest)
    else none
  | _ => none

/-!
## Matchers for `_fix_common_errors` and the whitespace normalisation
-/

/-- The punctuation class `[.,;:!?]` of `_fix_common_errors`. -/
def isFixPunct (c : Char) : Bool :=
  c = '.' || c = ',' || c = ';' || c = ':' || c = '!' || c = '?'

/-- `' +([.,;:!?])'` → `\1`: drop spaces before punctuation. -/
def spacePunctMatcher : Matcher := fun _ l =>
  match l with
  | c :: cs =>
    if c = ' ' then
      let run := cs.takeWhile (· = ' ')
      match cs.dropWhile (· = ' ') with
      | p :: r => if isFixPunct p then some ([p], ' ' :: run ++ [p], r) else none
      | [] => none
    else none
  | [] => none

/-- `'([.,;:!?]) +'` → `'\1 '`: exactly one space after punctuation. -/
def punctSpaceMatcher : Matcher := fun _ l =>
  match l with
  | p :: c2 :: cs =>
    if isFixPunct p ∧ c2 = ' ' then
      some ([p, ' '], p :: ' ' :: cs.takeWhile (· = ' '), cs.dropWhile (· = ' '))
    else none
  | _ => none

/-- `(\d),(\d{3})` → `\1\2`: drop a thousands-separator comma. -/
def digitCommaMatcher : Matcher := fun _ l =>
  match l with
  | c :: c2 :: d1 :: d2 :: d3 :: rest =>
    if isAsciiDigit c ∧ c2 = ',' ∧ isAsciiDigit d1 ∧ isAsciiDigit d2 ∧ isAsciiDigit d3 then
      some ([c, d1, d2, d3], [c, c2, d1, d2, d3], rest)
    else none
  | _ => none

/-- `\(\s*` → `(`: drop whitespace after an opening parenthesis. -/
def parenOpenMatcher : Matcher := fun _ l =>
  match l with
  | c :: cs =>
    if c = '(' then some (['('], '(' :: cs.takeWhile isPySpace, cs.dropWhile isPySpace)
    else none
  | [] => none

/-- `\s*\)` → `)`: drop whitespace before a closing parenthesis. -/
def parenCloseMatcher : Matcher := fun _ l =>
  let ws := l.takeWhile isPySpace
  match l.dropWhile isPySpace with
  | c :: r => if c = ')' then some ([')'], ws ++ [')'], r) else none
  | [] => none

/-- `[ \t]`. -/
def isSpaceTab (c : Char) : Bool := c = ' ' || c = '\t'

/-- `[ \t]+` → a single space. -/
def spaceTabMatcher : Matcher := fun _ l =>
  match l with
  | c :: cs =>
    if isSpaceTab c then some ([' '], c :: cs.takeWhile isSpaceTab, cs.dropWhile isSpaceTab)
    else none
  | [] => none

/-- `\n[ \t]+` → `\n`: strip leading whitespace of a line. -/
def nlSpaceTabMatcher : Matcher := fun _ l =>
  match l with
  | c :: cs =>
    if c = '\n' then
      let run := cs.takeWhile isSpaceTab
      if run ≠ [] then some (['\n'], '\n' :: run, cs.dropWhile isSpaceTab) else none
    else none
  | [] => none

/-- `[ \t]+\n` → `\n`: strip trailing whitespace of a line. -/
def spaceTabNlMatcher : Matcher := fun _ l =>
  match l with
  | c :: cs =>
    if isSpaceTab c then
      let run := c :: cs.takeWhile isSpaceTab
      match cs.dropWhile isSpaceTab with
      | '\n' :: r => some (['\n'], run ++ ['\n'], r)
      | _ => none
    else none
  | [] => none

/-- `chinese_punctuation_map` of `_init_cleaning_rules`, in dict insertion
order.  Byte-for-byte, the last entries of the source dict literal are an
ASCII-quote self-mapping (written twice, merged by the dict) and one entry
whose key is the Python triple-quoted string `''' ... '''` spanning two
source lines (`: "'",` a newline and twelve spaces); that key contains a
newline and can never occur after the `\s+` collapse, making its replacement
inert, but it is kept for fidelity. -/
def chinesePunctuationPairs : List (Text × Text) :=
  [ (['，'], [',']), (['。'], ['.']), (['！'], ['!']), (['？'], ['?']),
    (['；'], [';']), (['：'], [':']), (['（'], ['(']), (['）'], [')']),
    (['【'], ['[']), (['】'], [']']), (['《'], ['<']), (['》'], ['>']),
    (['"'], ['"']),
    ([':', ' ', '"', '\'', '"', ',', '\n'] ++ List.replicate 12 ' ', ['\'']) ]

/-- Apply the Chinese-punctuation mapping, one `str.replace` per entry in
dict order. -/
def applyChinesePunctuationMap (t : Text) : Text :=
  chinesePunctuationPairs.foldl (fun acc p => pyReplace p.1 p.2 acc) t

/-!
## Data model (`src/models.py`)
-/

/-- `ProcessingStatus` enum. -/
inductive ProcessingStatus where
  | pending
  | processing
  | completed
  | failed
  | skipped
  deriving DecidableEq, Repr

/-- `Language` enum. -/
inductive Language where
  | chinese
  | english
  | auto
  deriving DecidableEq, Repr

/-- `ProcessMetadata`: one history record.  The wall-clock fields
(`processing_time`, `start_time`, `end_time`) and the `parameters`
configuration snapshot are omitted from the model. -/
structure ProcessMetadata where
  processor_name : String
  status : ProcessingStatus
  error_message : Option String := none
  deriving DecidableEq, Repr

/-- `QualityScore` (the `details` mapping is the four sub-scores again and is
omitted). -/
structure QualityScore where
  overall_score : ℚ
  completeness_score : ℚ
  relevance_score : ℚ
  consistency_score : ℚ
  diversity_score : ℚ
  deriving DecidableEq, Repr

/-- `QAData`: a question/answer pair. -/
structure QAData where
  question : Text
  answer : Text
  context : Option Text := none
  difficulty : Option Text := none
  domain : Option Text := none
  confidence : Option ℚ := none
  deriving DecidableEq, Repr

/-- One extracted-term record of the Enhancer (`_extract_terms`); the
part-of-speech tag, alias list and entity attributes attached by some
branches are omitted (no claim reads them). -/
structure TermInfo where
  term : Text
  type : Text
  confidence : ℚ
  deriving DecidableEq, Repr

/-- The `extra_data` extension bag, restricted to the keys the pipeline
stages write.  A `none` field models an absent dict key. -/
structure ExtraData where
  cleaned : Option Bool := none
  original_length : Option Nat := none
  cleaned_length : Option Nat := none
  ratio_of_cleaning : Option ℚ := none
  extracted_terms : Option (List TermInfo) := none
  generated_qa : Option (List (Text × Text)) := none
  original_content : Option Text := none
  knowledge_enriched : Option Bool := none
  domain_tags : Option (List Text) := none
  enhanced : Option Bool := none
  quality_score : Option QualityScore := none
  improvement_suggestions : Option (List Text) := none
  quality_warning : Option Bool := none
  deriving DecidableEq, Repr

/-- `DataChunk`.  `data_type` and `source_metadata` are carried nowhere by
the claims and omitted. -/
structure DataChunk where
  id : String := ""
  content : Text := []
  language : Language := Language.auto
  process_metadata : List ProcessMetadata := []
  extra_data : ExtraData := {}
  deriving DecidableEq, Repr

/-- `DataChunk.add_process_metadata`: append one history record. -/
def DataChunk.add_process_metadata (c : DataChunk) (m : ProcessMetadata) : DataChunk :=
  { c with process_metadata := c.process_metadata ++ [m] }

/-- `DataChunk.get_latest_status`: the status of the last record, or
PENDING when the history is empty. -/
def DataChunk.get_latest_status (c : DataChunk) : ProcessingStatus :=
  (c.process_metadata.getLast?).elim ProcessingStatus.pending (·.status)

/-- `BaseSkill.validate_input`: the content must not be empty after
stripping. -/
def validate_input (c : DataChunk) : Bool := pyStrip c.content ≠ []

/-!
## The Cleaner (`src/skills/cleaner.py`)

The jieba/spaCy engines are modelled as absent, so every branch of
`_language_specific_cleaning` is the source's pass-through fallback.
-/

/-- The Cleaner's configuration parameters, with the defaults of
`HydroDataCleaner.__init__`. -/
structure CleanerConfig where
  remove_duplicates : Bool := true
  normalize_whitespace : Bool := true
  remove_special_chars : Bool := false
  min_text_length : Nat := 10
  similarity_threshold : ℚ := 85 / 100
  deriving Repr

/-- `_basic_text_cleaning`: newline normalisation, the seven
`cleanup_patterns` in order, the Chinese-punctuation mapping when the text
contains CJK characters, then whitespace normalisation and strip. -/
def basic_text_cleaning (cfg : CleanerConfig) (text : Text) : Text :=
  if text = [] then text
  else
    let c := pyReplace ['\r', '\n'] ['\n'] text
    let c := pyReplace ['\r'] ['\n'] c
    let c := pySub wsMatcher c
    let c := pySub nlMatcher c
    let c := pySub tagMatcher c
    let c := pySub urlMatcher c
    let c := pySub emailMatcher c
    let c := pySub ellipsisMatcher c
    let c := pySub digitLetterMatcher c
    let c := if containsChinese c then applyChinesePunctuationMap c else c
    if cfg.normalize_whitespace then
      let c := pySub spaceTabMatcher c
      let c := pySub nlSpaceTabMatcher c
      let c := pySub spaceTabNlMatcher c
      pyStrip c
    else c

/-- `_language_specific_cleaning`: with jieba and spaCy absent each of the
Chinese / English / mixed branches returns the text unchanged (the guarded
`return text` fallbacks), for every language tag. -/
def language_specific_cleaning (text : Text) (_lang : Language) : Text := text

/-- The allow-list of `_advanced_text_cleaning`'s optional special-character
removal: `[一-鿿㐀-䶿\w\s.,;:!?()[\]{}"\'-]`. -/
def isAllowedChar (c : Char) : Bool :=
  isCJK c || (0x3400 ≤ c.toNat && c.toNat ≤ 0x4dbf) || isWordChar c || isPySpace c ||
  c = '.' || c = ',' || c = ';' || c = ':' || c = '!' || c = '?' ||
  c = '(' || c = ')' || c = '[' || c = ']' ||
  c = Char.ofNat 0x7b || c = Char.ofNat 0x7d || c = '"' || c = '\'' || c = '-'

/-- `_fix_common_errors`: the five error-fix substitutions in order. -/
def fix_common_errors (text : Text) : Text :=
  let c := pySub spacePunctMatcher text
  let c := pySub punctSpaceMatcher c
  let c := pySub digitCommaMatcher c
  let c := pySub parenOpenMatcher c
  pySub parenCloseMatcher c

/-- `_advanced_text_cleaning`: optional allow-list filtering, then
`_fix_common_errors`. -/
def advanced_text_cleaning (cfg : CleanerConfig) (text : Text) : Text :=
  let t := if cfg.remove_special_chars then text.filter isAllowedChar else text
  fix_common_errors t

/-- The full cleaning chain of `process_single` steps 1–3. -/
def clean_all_stages (cfg : CleanerConfig) (text : Text) (lang : Language) : Text :=
  advanced_text_cleaning cfg (language_specific_cleaning (basic_text_cleaning cfg text) lang)

/-- The domain-keyword characters of `_quality_check`. -/
def qualityHydroKeywords : List Char :=
  ['水', '文', '雨', '河', '湖', '库', '坝', '防', '洪', '涝']

/-- `_quality_check`: minimum stripped length, non-blank, character
diversity, and the domain-keyword heuristic with its long-and-diverse
escape hatch. -/
def quality_check (cfg : CleanerConfig) (text : Text) : Bool :=
  if (pyStrip text).length < cfg.min_text_length then false
  else if pyStrip text = [] then false
  else
    let unique := text.dedup.length
    if unique < 5 ∧ 20 < text.length then false
    else if ¬ qualityHydroKeywords.any (fun k => pyContains text [k]) then
      decide (100 < text.length ∧ 30 < unique)
    else true

/-- `_calculate_similarity`: Jaccard similarity of the lower-cased
character sets. -/
def calculate_similarity (t1 t2 : Text) : ℚ :=
  if t1 = [] ∨ t2 = [] then 0
  else
    let s1 := (lowerText t1).dedup
    let s2 := (lowerText t2).dedup
    let inter := (s1.filter (· ∈ s2)).length
    let union := s1.length + (s2.filter (· ∉ s1)).length
    if union = 0 then 0 else (inter : ℚ) / union

/-- The Cleaner's duplicate-tracking state: `seen_hashes` and
`seen_contents`.  MD5 hashing is idealised as the identity on texts, so a
hash is stored as the text itself and hash equality is text equality. -/
structure CleanerState where
  seen_hashes : List Text := []
  seen_contents : List (String × Text) := []
  deriving Repr

/-- `_is_duplicate`: exact hash match, then similarity against every
registered content; a non-duplicate is registered.  Returns the verdict and
the updated registry. -/
def is_duplicate (cfg : CleanerConfig) (st : CleanerState) (text : Text) (chunkId : String) :
    Bool × CleanerState :=
  if text ∈ st.seen_hashes then (true, st)
  else if st.seen_contents.any (fun p => cfg.similarity_threshold < calculate_similarity text p.2) then
    (true, st)
  else
    (false,
      { seen_hashes := st.seen_hashes ++ [text],
        seen_contents := st.seen_contents ++ [(chunkId, text)] })

/-- A history record created by `HydroDataCleaner._create_process_metadata`. -/
def cleanerMeta (status : ProcessingStatus) (msg : Option String) : ProcessMetadata :=
  { processor_name := "HydroDataCleaner", status := status, error_message := msg }

/-- `HydroDataCleaner.process_single`.  The `try`/`except` wrapper is dead
in the model (every modelled step is total), so the FAILED branch does not
appear. -/
def cleaner_process_single (cfg : CleanerConfig) (st : CleanerState) (c : DataChunk) :
    CleanerState × DataChunk :=
  if ¬ validate_input c then (st, c)
  else
    let original := c.content
    let cleaned := clean_all_stages cfg original c.language
    if ¬ quality_check cfg cleaned then (st, c)
    else
      let commit : DataChunk :=
        { c with
          content := cleaned,
          extra_data :=
            { c.extra_data with
              cleaned := some true,
              original_length := some original.length,
              cleaned_length := some cleaned.length,
              ratio_of_cleaning :=
                some (if original ≠ [] then (cleaned.length : ℚ) / original.length else 0) } }
      if cfg.remove_duplicates then
        match is_duplicate cfg st cleaned c.id with
        | (true, st') =>
            (st', c.add_process_metadata (cleanerMeta ProcessingStatus.skipped (some "重复数据")))
        | (false, st') => (st', commit)
      else (st, commit)

/-!
## The skill-execution framework (`src/skills/base.py`)

A stage is a stateful single-chunk transform: `step` threads the stage's
instance state (the Cleaner's duplicate registry; `Unit` for the stateless
stages) and either returns the processed chunk or fails with a Python
exception message.  `BaseSkill.process_batch` walks the batch in order,
appending a COMPLETED record on success and, on failure, a FAILED record to
the original chunk, which is retained in place.
-/

/-- A pipeline stage as run by the framework. -/
structure SkillRun (σ : Type) where
  name : String
  step : σ → DataChunk → σ × Except String DataChunk

/-- The COMPLETED history record appended by `process_batch`. -/
def completedMeta (name : String) : ProcessMetadata :=
  { processor_name := name, status := ProcessingStatus.completed }

/-- The FAILED history record appended by `process_batch`. -/
def failedMeta (name : String) (e : String) : ProcessMetadata :=
  { processor_name := name, status := ProcessingStatus.failed, error_message := some e }

/-- `BaseSkill.process_batch`. -/
def process_batch {σ : Type} (sk : SkillRun σ) (s : σ) : List DataChunk → σ × List DataChunk
  | [] => (s, [])
  | c :: rest =>
    let r := sk.step s c
    let oc : DataChunk :=
      match r.2 with
      | Except.ok c' => c'.add_process_metadata (completedMeta sk.name)
      | Except.error e => c.add_process_metadata (failedMeta sk.name e)
    let tail := process_batch sk r.1 rest
    (tail.1, oc :: tail.2)

/-- The stage state just before the `i`-th chunk of a batch is processed. -/
def state_at {σ : Type} (sk : SkillRun σ) (s : σ) : List DataChunk → Nat → σ
  | [], _ => s
  | _ :: _, 0 => s
  | c :: rest, i + 1 => state_at sk (sk.step s c).1 rest i

/-!
## The Evaluator (`src/skills/evaluator.py`)
-/

/-- `hydro_keywords` of `_init_evaluators`, in source order (a Python set
literal; `水库` is written twice and deduplicated below). -/
def hydroKeywordsSource : List Text :=
  ["水文", "气象", "降雨", "降水", "径流", "蒸发", "渗透", "地下水", "地表水",
   "水位", "流量", "流速", "含沙量", "溶解氧", "水质", "水量", "水环境", "水生态",
   "流域", "水系", "河流", "河道", "河床", "河岸", "河口", "三角洲", "湖泊", "水库",
   "长江", "黄河", "珠江", "淮河", "海河", "松花江", "辽河",
   "大坝", "水坝", "堤坝", "水闸", "堤防", "泵站", "水电站", "水库", "拦河坝",
   "防洪", "排涝", "灌溉", "供水", "排水", "调水", "引水",
   "洪水", "枯水", "丰水", "平水", "汛期", "枯水期", "丰水期", "干旱", "洪涝",
   "暴雨", "特大暴雨", "连续降雨", "梅雨", "台风",
   "水文站", "雨量站", "水位站", "监测", "预报", "预警", "调度", "管理", "规划",
   "设计", "施工", "运行", "维护", "治理", "保护", "修复", "生态"].map String.toList

/-- The evaluator's keyword set (`set` semantics: distinct members). -/
def hydro_keywords : List Text := hydroKeywordsSource.dedup

/-- `_is_hydro_word`: the word contains a keyword or is contained in one,
case-insensitively. -/
def is_hydro_word (word : Text) : Bool :=
  hydro_keywords.any (fun kw =>
    pyContains (lowerText word) (lowerText kw) || pyContains (lowerText kw) (lowerText word))

/-- Token classes of the regex `[一-鿿]+|[a-zA-Z]+`: a CJK run or an ASCII
letter run. -/
def charKind (c : Char) : Option Bool :=
  if isCJK c then some true else if isAsciiLetter c then some false else none

/-- `re.findall(r'[一-鿿]+|[a-zA-Z]+', text)`: the maximal single-class
runs, in order. -/
def cjkLatinTokens : Text → List Text
  | [] => []
  | c :: cs =>
    match charKind c with
    | none => cjkLatinTokens cs
    | some k =>
      match cs with
      | [] => [[c]]
      | c' :: _ =>
        if charKind c' = some k then
          match cjkLatinTokens cs with
          | [] => [[c]]
          | t :: ts => (c :: t) :: ts
        else [c] :: cjkLatinTokens cs

/-- Auxiliary run counter: `inRun` says whether the previous character
satisfied `p`. -/
def countRuns (p : Char → Bool) : Bool → Text → Nat
  | _, [] => 0
  | inRun, c :: cs =>
    if p c then (if inRun then 0 else 1) + countRuns p true cs
    else countRuns p false cs

/-- `len(re.findall(r'\b\w+\b', content))`: the number of maximal
word-character runs. -/
def wordCount (t : Text) : Nat := countRuns isWordChar false t

/-- `re.findall(r'\d+(?:\.\d+)?', ...)` and the numeric test of
`_evaluate_diversity`: an integer with an optional fraction part. -/
def numberTokenMatcher : Matcher := fun _ l =>
  match l with
  | c :: cs =>
    if isAsciiDigit c then
      let run := c :: cs.takeWhile isAsciiDigit
      let rest := cs.dropWhile isAsciiDigit
      match rest with
      | '.' :: r2 =>
        let frac := r2.takeWhile isAsciiDigit
        if frac ≠ [] then some ([], run ++ '.' :: frac, r2.dropWhile isAsciiDigit)
        else some ([], run, rest)
      | _ => some ([], run, rest)
    else none
  | [] => none

/-- The causal-connective words of `_evaluate_completeness`. -/
def causalWords : List Text := ["因为", "所以", "由于", "因此", "原因", "原理"].map String.toList

/-- The application-indicating words of `_evaluate_completeness`. -/
def applicationWords : List Text := ["应用", "使用", "方法", "措施", "技术"].map String.toList

/-- `_evaluate_completeness`: length score, structural score (digits,
≥ 2 extracted terms, causal words, application words), word density. -/
def evaluate_completeness (content : Text) (extra : ExtraData) : ℚ :=
  let lengthScore : ℚ := min 1 ((content.length : ℚ) / 200)
  let structureScore : ℚ :=
    (if content.any isAsciiDigit then 2/10 else 0) +
    (if 2 ≤ (extra.extracted_terms.getD []).length then 3/10 else 0) +
    (if causalWords.any (fun w => pyContains content w) then 2/10 else 0) +
    (if applicationWords.any (fun w => pyContains content w) then 3/10 else 0)
  let densityScore : ℚ := min 1 ((wordCount content : ℚ) / 50)
  min 1 (lengthScore * (3/10) + structureScore * (4/10) + densityScore * (3/10))

/-- The four `domain_patterns` of `_evaluate_relevance`, each an
alternation of literal words. -/
def relevanceDomainPatterns : List (List Text) :=
  [["水文", "降雨", "径流", "蒸发", "水位", "流量"].map String.toList,
   ["大坝", "堤防", "水闸", "泵站", "水库", "工程"].map String.toList,
   ["管理", "调度", "运行", "维护", "监测", "预报"].map String.toList,
   ["水质", "水环境", "生态", "污染", "保护", "治理"].map String.toList]

/-- `_evaluate_relevance`: keyword coverage, amplified domain-word ratio,
and matched domain-pattern categories. -/
def evaluate_relevance (content : Text) : ℚ :=
  let contentLower := lowerText content
  let matched := hydro_keywords.countP (fun kw => pyContains contentLower (lowerText kw))
  let score1 : ℚ := ((matched : ℚ) / hydro_keywords.length) * (4/10)
  let words := cjkLatinTokens content
  let score2 : ℚ :=
    if words ≠ [] then
      min 1 (((words.countP is_hydro_word : ℚ) / words.length) * 5) * (3/10)
    else 0
  let domains := relevanceDomainPatterns.countP (fun pats => pats.any (fun p => pyContains content p))
  let score3 : ℚ := ((domains : ℚ) * (25/100)) * (3/10)
  min 1 (score1 + score2 + score3)

/-- `synonyms_map` of `_find_term_variations`. -/
def synonymsMap : List (Text × List Text) :=
  [("降雨".toList, ["降水"].map String.toList),
   ("径流".toList, ["水流"].map String.toList),
   ("大坝".toList, ["水坝", "堤坝"].map String.toList)]

/-- `_find_term_variations`: the term itself, its first-plus-last-character
abbreviation when present in the content, and mapped synonyms; deduplicated
(`list(set(...))` — only the member count is consumed). -/
def find_term_variations (term : Text) (content : Text) : List Text :=
  let v0 := [term]
  if 2 ≤ term.length then
    let v1 :=
      if 2 < term.length then
        let ab := [term.headD ' ', term.getLastD ' ']
        if pyContains content ab ∧ ab ≠ term then v0 ++ [ab] else v0
      else v0
    let v2 := synonymsMap.foldl (fun acc p =>
      if term = p.1 then acc ++ p.2.filter (fun s => pyContains content s)
      else if term ∈ p.2 then acc ++ [p.1] else acc) v1
    v2.dedup
  else v0.dedup

/-- `_check_number_contradictions`: the source is a stub whose every path
returns `False`. -/
def check_number_contradictions : Bool := false

/-- `_evaluate_consistency`: base 0.8, language-balance bonus, repeated
term-variation penalty (≤ 0.3), numeric-contradiction penalty, clamped to
`[0,1]`. -/
def evaluate_consistency (content : Text) : ℚ :=
  let chineseChars := (content.filter isCJK).length
  let englishChars := (content.filter isAsciiLetter).length
  let total := chineseChars + englishChars
  let langBonus : ℚ :=
    if 0 < total then
      let ratio : ℚ := (chineseChars : ℚ) / total
      if 2/10 < ratio ∧ ratio < 8/10 then 1/10
      else if 9/10 < ratio ∨ ratio < 1/10 then 5/100
      else 0
    else 0
  let terms := (cjkLatinTokens content).filter (fun t => 2 ≤ t.length)
  let inconsistencies := terms.dedup.countP (fun t =>
    2 ≤ terms.count t ∧ 1 < (find_term_variations t content).length)
  let penalty : ℚ := min (3/10) ((inconsistencies : ℚ) * (1/10))
  let numbers := pyFindall numberTokenMatcher content
  let contradictionPenalty : ℚ :=
    if 1 < numbers.length ∧ check_number_contradictions then 2/10 else 0
  max 0 (min 1 (8/10 + langBonus - penalty - contradictionPenalty))

/-- Sentence enders `[。！？.!?]` of `_evaluate_diversity`. -/
def isSentenceEnd (c : Char) : Bool :=
  c = '。' || c = '！' || c = '？' || c = '.' || c = '!' || c = '?'

/-- The maximal runs of characters not satisfying `p`, in order (the
non-empty pieces of `re.split`). -/
def nonSepRuns (p : Char → Bool) : Text → List Text
  | [] => []
  | c :: cs =>
    if p c then nonSepRuns p cs
    else
      match cs with
      | [] => [[c]]
      | c' :: _ =>
        if p c' then [c] :: nonSepRuns p cs
        else
          match nonSepRuns p cs with
          | [] => [[c]]
          | t :: ts => (c :: t) :: ts

/-- `topic_keywords` of `_evaluate_diversity`, in dict order. -/
def topicKeywordGroups : List (List Text) :=
  [["数据", "数值", "统计", "测量", "监测"].map String.toList,
   ["技术", "方法", "工艺", "方案", "措施"].map String.toList,
   ["管理", "制度", "政策", "规划", "调度"].map String.toList,
   ["工程", "建设", "施工", "设计", "维护"].map String.toList,
   ["环境", "生态", "保护", "治理", "修复"].map String.toList]

/-- The punctuation class of the "描述" info-type test.  Byte-for-byte the
source class is `[，。！？；：""（）【】]` (the intended curly quotes are two
ASCII quotes closing and reopening the string literal). -/
def isDescriptivePunct (c : Char) : Bool :=
  c = '，' || c = '。' || c = '！' || c = '？' || c = '；' || c = '：' ||
  c = '"' || c = '（' || c = '）' || c = '【' || c = '】'

/-- The causal words of the "因果" info-type test. -/
def causalWords4 : List Text := ["因为", "所以", "由于", "因此"].map String.toList

/-- The sequencing words of the "逻辑" info-type test. -/
def sequencingWords : List Text := ["首先", "其次", "最后", "另外"].map String.toList

/-- `_evaluate_diversity`: vocabulary diversity, normalised
sentence-length variance, topic diversity, info-type diversity. -/
def evaluate_diversity (content : Text) : ℚ :=
  let words := cjkLatinTokens (lowerText content)
  let s1 : ℚ :=
    if 0 < words.length then ((words.dedup.length : ℚ) / words.length) * (3/10) else 0
  let sentences := ((nonSepRuns isSentenceEnd content).map pyStrip).filter (· ≠ [])
  let s2 : ℚ :=
    if 1 < sentences.length then
      let lens : List ℚ := sentences.map (fun s => (s.length : ℚ))
      let n : ℚ := (lens.length : ℚ)
      let mean := lens.sum / n
      let lengthVariance := (lens.map (fun x => (x - mean) ^ 2)).sum / n
      let maxLen : Nat := (sentences.map List.length).foldr max 0
      let normalizedVariance : ℚ :=
        if 0 < maxLen then lengthVariance / ((maxLen : ℚ) ^ 2) else 0
      min 1 (normalizedVariance * 10) * (2/10)
    else 0
  let topics := topicKeywordGroups.countP (fun g => g.any (fun w => pyContains content w))
  let s3 : ℚ := ((topics : ℚ) / topicKeywordGroups.length) * (3/10)
  let infoTypes : Nat :=
    (if ¬ (pyFindall numberTokenMatcher content).isEmpty then 1 else 0) +
    (if content.any isDescriptivePunct then 1 else 0) +
    (if causalWords4.any (fun w => pyContains content w) then 1 else 0) +
    (if sequencingWords.any (fun w => pyContains content w) then 1 else 0)
  let s4 : ℚ := ((infoTypes : ℚ) / 4) * (2/10)
  min 1 (s1 + s2 + s3 + s4)

/-- The four quality metrics. -/
inductive Metric where
  | completeness
  | relevance
  | consistency
  | diversity
  deriving DecidableEq, Repr

/-- `metric_weights` of `_init_evaluators` (every key of the `scores` dict
is one of the four metrics, so the `0.25` fallback of
`metric_weights.get` is dead). -/
def metricWeight : Metric → ℚ
  | Metric.completeness => 25/100
  | Metric.relevance => 30/100
  | Metric.consistency => 20/100
  | Metric.diversity => 25/100

/-- The Evaluator's configuration: which metrics are listed in
`quality_metrics`, and the `min_quality_score` threshold (default 0.7). -/
structure EvaluatorConfig where
  active : Metric → Bool := fun _ => true
  min_quality_score : ℚ := 7/10

/-- The `scores` dict built by `_evaluate_quality`, in insertion order. -/
def scoresList (cfg : EvaluatorConfig) (c : DataChunk) : List (Metric × ℚ) :=
  (if cfg.active Metric.completeness then
    [(Metric.completeness, evaluate_completeness c.content c.extra_data)] else []) ++
  (if cfg.active Metric.relevance then
    [(Metric.relevance, evaluate_relevance c.content)] else []) ++
  (if cfg.active Metric.consistency then
    [(Metric.consistency, evaluate_consistency c.content)] else []) ++
  (if cfg.active Metric.diversity then
    [(Metric.diversity, evaluate_diversity c.content)] else [])

/-- `_calculate_overall_score`: weighted sum renormalised by the total
active weight. -/
def calculate_overall_score (scores : List (Metric × ℚ)) : ℚ :=
  let overall := (scores.map (fun p => p.2 * metricWeight p.1)).sum
  let totalWeight := (scores.map (fun p => metricWeight p.1)).sum
  if 0 < totalWeight then overall / totalWeight else 0

/-- `scores.get(metric, 0.0)`. -/
def getScore (scores : List (Metric × ℚ)) (m : Metric) : ℚ :=
  ((scores.find? (fun p => p.1 = m)).map (·.2)).getD 0

/-- `_evaluate_quality`: the full quality-score object. -/
def evaluate_quality (cfg : EvaluatorConfig) (c : DataChunk) : QualityScore :=
  let scores := scoresList cfg c
  { overall_score := calculate_overall_score scores,
    completeness_score := getScore scores Metric.completeness,
    relevance_score := getScore scores Metric.relevance,
    consistency_score := getScore scores Metric.consistency,
    diversity_score := getScore scores Metric.diversity }

/-- `_generate_suggestions`: the deterministic threshold-triggered canned
strings, in source order. -/
def generate_suggestions (c : DataChunk) (qs : QualityScore) : List Text :=
  let content := c.content
  let s1 : List Text :=
    if qs.completeness_score < 7/10 then
      (if content.length < 100 then ["内容较短，建议增加更多详细信息".toList] else []) ++
      (if ¬ content.any isAsciiDigit then ["缺少具体数据，建议添加相关数值信息".toList] else []) ++
      (if (c.extra_data.extracted_terms.getD []) = [] then
        ["缺少专业术语，建议增加水利专业概念".toList] else [])
    else []
  let s2 : List Text :=
    if qs.relevance_score < 6/10 then
      ["水利相关性较弱，建议增加专业领域内容".toList] ++
      (if qs.relevance_score < 4/10 then ["建议明确阐述与水利领域的关联性".toList] else [])
    else []
  let s3 : List Text :=
    if qs.consistency_score < 7/10 then ["内容一致性有待改善，建议检查术语使用和逻辑结构".toList] else []
  let s4 : List Text :=
    if qs.diversity_score < 6/10 then
      ["表达较为单一，建议丰富词汇和句式".toList] ++
      (if qs.diversity_score < 4/10 then ["建议从多个角度展开描述，增加信息层次".toList] else [])
    else []
  s1 ++ s2 ++ s3 ++ s4

/-- `HydroDataEvaluator.process_single` (the instance-level evaluation log
of `_record_evaluation` is monitoring state and omitted). -/
def evaluator_process_single (cfg : EvaluatorConfig) (c : DataChunk) : DataChunk :=
  if ¬ validate_input c then c
  else
    let qs := evaluate_quality cfg c
    let c1 := { c with extra_data := { c.extra_data with quality_score := some qs } }
    let suggestions := generate_suggestions c1 qs
    let c2 :=
      if suggestions ≠ [] then
        { c1 with extra_data := { c1.extra_data with improvement_suggestions := some suggestions } }
      else c1
    if qs.overall_score < cfg.min_quality_score then
      { c2 with extra_data := { c2.extra_data with quality_warning := some true } }
    else c2

/-- `filter_by_quality`, in the source's accumulate-by-append loop shape;
`min_score=None` defaults to the configured threshold. -/
def filter_by_quality (cfg : EvaluatorConfig) (chunks : List DataChunk)
    (minScore : Option ℚ) : List DataChunk :=
  let m := minScore.getD cfg.min_quality_score
  chunks.foldl (fun acc c =>
    match c.extra_data.quality_score with
    | some q => if m ≤ q.overall_score then acc ++ [c] else acc
    | none => acc) []

/-!
## The Enhancer (`src/skills/enhancer.py`)

jieba and transformers are modelled as absent: `_extract_chinese_terms`
returns `[]` behind its `JIEBA_SUPPORT` guard and the model-based QA
generator contributes nothing (`qa_model is None`).  The only random choices
(`random.choice` in `_generate_template_qa`) are abstracted into an
`Oracle` of index-choosing functions.
-/

/-- The random choices of `_generate_template_qa`, abstracted: for the
`i`-th processed term, the question-category pick, the template pick within
the category, and the comparison-partner pick. -/
structure Oracle where
  qaType : Nat → Nat
  templateIdx : Nat → Nat
  otherIdx : Nat → Nat

/-- The Enhancer's configuration toggles (defaults of
`HydroDataEnhancer.__init__`). -/
structure EnhancerConfig where
  enable_qa_generation : Bool := true
  enable_term_extraction : Bool := true
  enable_knowledge_enrichment : Bool := true

/-- `_extract_chinese_terms`: with jieba absent the guard
`if not JIEBA_SUPPORT: return terms` yields the empty list. -/
def extract_chinese_terms (_text : Text) : List TermInfo := []

/-- `english_hydro_terms` of `_extract_english_terms` (the two-word entry
`water quality` can never equal a single `\b[a-zA-Z]+\b` token). -/
def englishHydroTerms : List Text :=
  ["hydrology", "water", "river", "dam", "reservoir", "flood",
   "drought", "precipitation", "evaporation", "runoff", "watershed",
   "groundwater", "irrigation", "drainage", "water quality", "ecosystem"].map String.toList

/-- `re.findall(r'\b[a-zA-Z]+\b', ...)`: maximal ASCII-letter runs. -/
def letterTokens (t : Text) : List Text := nonSepRuns (fun c => ! isAsciiLetter c) t

/-- `_extract_english_terms`: lowercase word tokens found in the fixed
English term set, confidence 0.8. -/
def extract_english_terms (text : Text) : List TermInfo :=
  ((letterTokens (lowerText text)).filter (· ∈ englishHydroTerms)).map
    (fun w => { term := w, type := "English专业术语".toList, confidence := 8/10 })

/-- The keep-first deduplication and single-character filter closing
`_extract_terms`. -/
def dedup_terms (seen : List Text) : List TermInfo → List TermInfo
  | [] => []
  | t :: rest =>
    if t.term ∉ seen ∧ 1 < t.term.length then t :: dedup_terms (t.term :: seen) rest
    else dedup_terms seen rest

/-- `_extract_terms`: language dispatch, then dedup/filter. -/
def extract_terms (text : Text) (lang : Language) : List TermInfo :=
  let raw :=
    if lang = Language.chinese ∨ (lang = Language.auto ∧ containsChinese text) then
      extract_chinese_terms text
    else if lang = Language.english then extract_english_terms text
    else extract_chinese_terms text ++ extract_english_terms text
  dedup_terms [] raw

/-- The five question categories of `qa_templates`, in dict order
(定义型, 原理型, 应用型, 计算型, 比较型). -/
inductive QaCategory where
  | definition
  | mechanism
  | application
  | calculation
  | comparison
  deriving DecidableEq, Repr

/-- `list(self.qa_templates.keys())`. -/
def qaCategories : List QaCategory :=
  [QaCategory.definition, QaCategory.mechanism, QaCategory.application,
   QaCategory.calculation, QaCategory.comparison]

/-- The three templates of each category, instantiated at a term (and, for
the comparison category, a second term). -/
def formatTemplate (cat : QaCategory) (i : Nat) (term other : Text) : Text :=
  match cat, i % 3 with
  | QaCategory.definition, 0 => "什么是".toList ++ term ++ "？".toList
  | QaCategory.definition, 1 => term ++ "的定义是什么？".toList
  | QaCategory.definition, _ => "请解释一下".toList ++ term ++ "的含义。".toList
  | QaCategory.mechanism, 0 => term ++ "的原理是什么？".toList
  | QaCategory.mechanism, 1 => term ++ "是如何工作的？".toList
  | QaCategory.mechanism, _ => "请说明".toList ++ term ++ "的工作机制。".toList
  | QaCategory.application, 0 => term ++ "在实际中有什么应用？".toList
  | QaCategory.application, 1 => term ++ "的主要用途是什么？".toList
  | QaCategory.application, _ => "如何应用".toList ++ term ++ "解决实际问题？".toList
  | QaCategory.calculation, 0 => "如何计算".toList ++ term ++ "？".toList
  | QaCategory.calculation, 1 => term ++ "的计算公式是什么？".toList
  | QaCategory.calculation, _ => "请说明".toList ++ term ++ "的计算方法。".toList
  | QaCategory.comparison, 0 => term ++ "和".toList ++ other ++ "有什么区别？".toList
  | QaCategory.comparison, 1 => term ++ "与".toList ++ other ++ "相比有什么优势？".toList
  | QaCategory.comparison, _ => "请比较".toList ++ term ++ "和".toList ++ other ++ "的特点。".toList

/-- All positions at which `term` occurs in `content` (the
`content.find(term, start)` loop with `start = pos + 1`). -/
def occurrencePositions (term content : Text) : List Nat :=
  (List.range content.length).filter (fun i => term.isPrefixOf (content.drop i))

/-- Python slice `t[a:b]` for `a ≤ b` (ℕ subtraction models the `max(0, ·)`
already applied by the callers). -/
def pySlice (t : Text) (a b : Nat) : Text := (t.take b).drop a

/-- `content.find(pat)`. -/
def pyFind (content pat : Text) : Option Nat := (occurrencePositions pat content).head?

/-- `_generate_default_answer`: the canned per-category answers
(`default_answers.get(qa_type, ...)` always hits, the category being one of
the five keys). -/
def generate_default_answer (term : Text) (cat : QaCategory) : Text :=
  match cat with
  | QaCategory.definition => term ++ "是水利领域的重要概念，具体定义需要结合专业文献确定。".toList
  | QaCategory.mechanism => term ++ "的工作原理涉及多个水利专业知识点，需要详细分析。".toList
  | QaCategory.application => term ++ "在水利工程中有重要应用，具体应用场景需要根据实际情况确定。".toList
  | QaCategory.calculation => term ++ "的计算方法需要参考相关的水利计算规范和手册。".toList
  | QaCategory.comparison => term ++ "与其他概念的比较需要从多个维度进行分析。".toList

/-- `_generate_answer_for_term`: the longest (first among ties) stripped
±100-character window around an occurrence that exceeds 20 characters,
falling back to the canned answer. -/
def generate_answer_for_term (term content : Text) (cat : QaCategory) : Text :=
  let positions := occurrencePositions term content
  if positions = [] then generate_default_answer term cat
  else
    let answers := (positions.map (fun pos =>
      pyStrip (pySlice content (pos - 100) (min content.length (pos + term.length + 100))))).filter
      (fun ctx => 20 < ctx.length)
    match answers with
    | [] => generate_default_answer term cat
    | a :: rest => rest.foldl (fun best x => if best.length < x.length then x else best) a

/-- `_determine_domain`. -/
def determine_domain (term : Text) : Text :=
  if term = "水文".toList ∨ term = "降雨".toList ∨ term = "径流".toList then "水文学".toList
  else if term = "大坝".toList then "水工程".toList
  else if term = "防洪".toList then "防洪".toList
  else if term = "灌溉".toList then "灌溉".toList
  else if term = "水质".toList then "水环境".toList
  else "综合".toList

/-- The indexed loop of `_generate_template_qa` over the first three terms;
`random.choice` on the empty comparison-partner list raises `IndexError`,
surfaced as an `Except.error`. -/
def template_qa_go (or : Oracle) (terms : List TermInfo) (content : Text) :
    Nat → List TermInfo → Except String (List QAData)
  | _, [] => Except.ok []
  | i, ti :: rest =>
    let cat := (qaCategories.getD (or.qaType i % 5) QaCategory.definition)
    let question : Except String Text :=
      if cat = QaCategory.comparison ∧ 1 < terms.length then
        match (terms.map (·.term)).filter (· ≠ ti.term) with
        | [] => Except.error "Cannot choose from an empty sequence"
        | o :: os => Except.ok (formatTemplate cat (or.templateIdx i) ti.term
            ((o :: os).getD (or.otherIdx i % (o :: os).length) []))
      else Except.ok (formatTemplate cat (or.templateIdx i) ti.term [])
    match question with
    | Except.error e => Except.error e
    | Except.ok q =>
      let answer := generate_answer_for_term ti.term content cat
      let here : List QAData :=
        if answer ≠ [] then
          [{ question := q, answer := answer,
             context := some (if 200 < content.length then content.take 200 ++ "...".toList
                              else content),
             domain := some (determine_domain ti.term),
             confidence := some (8/10) }]
        else []
      match template_qa_go or terms content (i + 1) rest with
      | Except.error e => Except.error e
      | Except.ok tail => Except.ok (here ++ tail)

/-- `_generate_template_qa`. -/
def generate_template_qa (or : Oracle) (c : DataChunk) : Except String (List QAData) :=
  let terms := c.extra_data.extracted_terms.getD []
  template_qa_go or terms c.content 0 (terms.take 3)

/-- The unit alternation `(?:km|mm|m|℃|%|万|亿|吨|立方米)` in source order. -/
def unitSuffixes : List Text :=
  ["km", "mm", "m", "℃", "%", "万", "亿", "吨", "立方米"].map String.toList

/-- `r'\d+(?:\.\d+)?\s*(?:km|mm|m|℃|%|万|亿|吨|立方米)'` of
`_generate_content_based_qa`. -/
def numberUnitMatcher : Matcher := fun _ l =>
  match l with
  | c :: cs =>
    if isAsciiDigit c then
      let run := c :: cs.takeWhile isAsciiDigit
      let rest0 := cs.dropWhile isAsciiDigit
      let numPart :=
        match rest0 with
        | '.' :: r2 => if (r2.takeWhile isAsciiDigit) ≠ [] then
            (run ++ '.' :: r2.takeWhile isAsciiDigit, r2.dropWhile isAsciiDigit)
          else (run, rest0)
        | _ => (run, rest0)
      let ws := numPart.2.takeWhile isPySpace
      let rest2 := numPart.2.dropWhile isPySpace
      match unitSuffixes.find? (fun u => u.isPrefixOf rest2) with
      | some u => some ([], numPart.1 ++ ws ++ u, rest2.drop u.length)
      | none => none
    else none
  | [] => none

/-- `_generate_content_based_qa`: for the first two unit-suffixed numbers, a
"what does this number mean" pair built from the ±50-character window around
the number's first occurrence; confidence 0.7, domain `数据`. -/
def generate_content_based_qa (c : DataChunk) : List QAData :=
  let content := c.content
  ((pyFindall numberUnitMatcher content).take 2).foldl (fun acc num =>
    match pyFind content num with
    | some pos =>
      let sentence := pyStrip (pySlice content (pos - 50) (min content.length (pos + num.length + 50)))
      acc ++ [{ question := "文中提到的".toList ++ num ++ "这个数据代表什么含义？".toList,
                answer := "根据原文内容，".toList ++ sentence,
                context := some sentence,
                domain := some "数据".toList,
                confidence := some (7/10) }]
    | none => acc) []

/-- `_generate_qa_pairs`: template-based plus content-based pairs (the
model-based generator contributes nothing with `qa_model is None`),
truncated to five. -/
def generate_qa_pairs (or : Oracle) (c : DataChunk) : Except String (List QAData) :=
  match generate_template_qa or c with
  | Except.error e => Except.error e
  | Except.ok tq => Except.ok ((tq ++ generate_content_based_qa c).take 5)

/-- The `explanations` table of `_get_term_explanation`. -/
def termExplanations : List (Text × Text) :=
  [("水文".toList, "研究水的各种现象和规律".toList),
   ("降雨".toList, "大气中的水汽凝结后降落到地面的现象".toList),
   ("径流".toList, "降水或融雪形成的地表水流".toList),
   ("蒸发".toList, "水从液态转变为气态的过程".toList),
   ("流域".toList, "分水线所包围的集水区域".toList),
   ("防洪".toList, "防止洪水灾害的各种措施".toList),
   ("灌溉".toList, "人为补给农田水分的措施".toList)]

/-- `_get_term_explanation` (`explanations.get(term, "")`). -/
def get_term_explanation (term : Text) : Text :=
  ((termExplanations.find? (fun p => p.1 = term)).map (·.2)).getD []

/-- `_enrich_content`: for each dictionary-typed term present in the content
whose explanation is not already inlined, rewrite every occurrence as
`term（explanation）`. -/
def enrich_content (c : DataChunk) : Text :=
  let terms := c.extra_data.extracted_terms.getD []
  terms.foldl (fun content ti =>
    if ti.type = "专业术语".toList then
      if pyContains content ti.term then
        let expl := get_term_explanation ti.term
        if expl ≠ [] ∧ ¬ pyContains content (ti.term ++ expl) then
          pyReplace ti.term (ti.term ++ '（' :: expl ++ ['）']) content
        else content
      else content
    else content) c.content

/-- `domain_keywords` of `_assign_domain_tags`, in dict order. -/
def domainTagGroups : List (Text × List Text) :=
  [("水资源".toList, ["水资源", "水量", "用水", "供水", "节水"].map String.toList),
   ("水文学".toList, ["水文", "降雨", "径流", "蒸发", "渗透"].map String.toList),
   ("水工程".toList, ["大坝", "水闸", "堤防", "泵站", "水库"].map String.toList),
   ("水环境".toList, ["水质", "水环境", "污染", "生态", "保护"].map String.toList),
   ("防洪".toList, ["洪水", "防洪", "防汛", "预警", "调度"].map String.toList),
   ("灌溉".toList, ["灌溉", "农田", "排水", "旱情", "抗旱"].map String.toList)]

/-- `_assign_domain_tags`. -/
def assign_domain_tags (content : Text) : List Text :=
  ((domainTagGroups.filter (fun g => g.2.any (fun k => pyContains content k))).map (·.1))

/-- `HydroDataEnhancer.process_single`: term extraction, QA generation,
enrichment, domain tagging; an exception (the modelled `IndexError` of the
comparison template) is caught by the `except` clause, which appends a
FAILED record to the chunk as mutated so far (`enhancement_time` is wall
clock and omitted; counters are monitoring state and omitted). -/
def enhancer_process_single (cfg : EnhancerConfig) (or : Oracle) (c : DataChunk) : DataChunk :=
  if ¬ validate_input c then c
  else
    let c1 :=
      if cfg.enable_term_extraction then
        let ts := extract_terms c.content c.language
        if ts ≠ [] then { c with extra_data := { c.extra_data with extracted_terms := some ts } }
        else c
      else c
    match (if cfg.enable_qa_generation then generate_qa_pairs or c1 else Except.ok []) with
    | Except.error e =>
        c1.add_process_metadata
          { processor_name := "HydroDataEnhancer", status := ProcessingStatus.failed,
            error_message := some e }
    | Except.ok qas =>
      let c2 :=
        if cfg.enable_qa_generation ∧ qas ≠ [] then
          { c1 with extra_data :=
            { c1.extra_data with generated_qa := some (qas.map (fun q => (q.question, q.answer))) } }
        else c1
      let c3 :=
        if cfg.enable_knowledge_enrichment then
          let e := enrich_content c2
          if e ≠ c2.content then
            { c2 with
              content := e,
              extra_data := { c2.extra_data with
                original_content := some c2.content, knowledge_enriched := some true } }
          else c2
        else c2
      let tags := assign_domain_tags c3.content
      let c4 :=
        if tags ≠ [] then { c3 with extra_data := { c3.extra_data with domain_tags := some tags } }
        else c3
      { c4 with extra_data := { c4.extra_data with enhanced := some true } }

/-!
## The pipeline controller (`src/skills/pipeline.py`)
-/

/-- `ProcessedData`, restricted to the fields the claims read. -/
structure ProcessedData where
  chunks : List DataChunk := []
  qa_pairs : List QAData := []
  deriving Repr

/-- `ProcessingResult`. -/
structure ProcessingResult where
  success : Bool
  data : Option ProcessedData := none
  error_message : Option String := none
  deriving Repr

/-- `PipelineConfig` (`src/models.py`), with its `__init__` defaults; the
four `*_params` dicts are opaque and omitted from the structure but listed in
`pipelineConfigAttrs`. -/
structure PipelineConfig where
  parser_enabled : Bool := true
  cleaner_enabled : Bool := true
  enhancer_enabled : Bool := true
  evaluator_enabled : Bool := true
  batch_size : Nat := 100
  max_workers : Nat := 4
  checkpoint_enabled : Bool := true
  error_handling : String := "skip"
  deriving Repr

/-- The complete set of attributes assigned by `PipelineConfig.__init__`
(Python instance attributes); `getattr` succeeds exactly on these. -/
def pipelineConfigAttrs : List String :=
  ["parser_enabled", "cleaner_enabled", "enhancer_enabled", "evaluator_enabled",
   "parser_params", "cleaner_params", "enhancer_params", "evaluator_params",
   "batch_size", "max_workers", "checkpoint_enabled", "error_handling"]

/-- The Python exceptions surfacing in the modelled controller paths. -/
inductive PyError where
  | attributeError (name : String)
  deriving DecidableEq, Repr

/-- The stored QA dict of a chunk's `generated_qa` entry re-read as
`QAData(**qa_data)`: only `question` and `answer` are present, every other
field takes its `None` default. -/
def qaFromStored (p : Text × Text) : QAData :=
  { question := p.1, answer := p.2 }

/-- The QA-assembly loop of `process_files` (steps at `pipeline.py`
lines 191–195): concatenate, in chunk order, the `generated_qa` entries of
each chunk. -/
def assemble_qa_pairs (chunks : List DataChunk) : List QAData :=
  chunks.foldl (fun acc c =>
    match c.extra_data.generated_qa with
    | some l => acc ++ l.map qaFromStored
    | none => acc) []

/-- The sequential branch of `_process_batches`: fixed-size slices fed to
`process_batch` (checkpoint persistence is file I/O and omitted).  Fuel is
the chunk count; Python's `range(0, len, batch_size)` raises on
`batch_size = 0`, a configuration no caller produces. -/
def seq_batches {σ : Type} (sk : SkillRun σ) (bs : Nat) :
    Nat → σ → List DataChunk → σ × List DataChunk
  | _, s, [] => (s, [])
  | 0, s, _ => (s, [])
  | fuel + 1, s, l =>
    let r := process_batch sk s (l.take bs)
    let t := seq_batches sk bs fuel r.1 (l.drop bs)
    (t.1, r.2 ++ t.2)

/-- `_process_batches`: the guard
`if self.pipeline_config.max_workers > 1 and self.pipeline_config.parallel_processing`
short-circuits, so with `max_workers ≤ 1` the attribute is never read and
the sequential branch runs; with `max_workers > 1` the read of the undefined
`parallel_processing` attribute raises `AttributeError` before any chunk is
touched (the `_process_parallel` branch is therefore unreachable and not
modelled). -/
def process_batches {σ : Type} (pc : PipelineConfig) (sk : SkillRun σ) (s : σ)
    (chunks : List DataChunk) : Except PyError (σ × List DataChunk) :=
  if 1 < pc.max_workers then Except.error (PyError.attributeError "parallel_processing")
  else Except.ok (seq_batches sk pc.batch_size chunks.length s chunks)

/-- The stage states threaded through a pipeline run (only the Cleaner
carries result-relevant state). -/
structure PipeState where
  cleaner : CleanerState := {}

/-- The Cleaner as a framework stage. -/
def cleanerSkill (cfg : CleanerConfig) : SkillRun PipeState :=
  { name := "HydroDataCleaner",
    step := fun ps c =>
      let r := cleaner_process_single cfg ps.cleaner c
      ({ cleaner := r.1 }, Except.ok r.2) }

/-- The Enhancer as a framework stage. -/
def enhancerSkill (cfg : EnhancerConfig) (or : Oracle) : SkillRun PipeState :=
  { name := "HydroDataEnhancer",
    step := fun ps c => (ps, Except.ok (enhancer_process_single cfg or c)) }

/-- The Evaluator as a framework stage. -/
def evaluatorSkill (cfg : EvaluatorConfig) : SkillRun PipeState :=
  { name := "HydroDataEvaluator",
    step := fun ps c => (ps, Except.ok (evaluator_process_single cfg c)) }

/-- A pipeline instance: controller configuration, stage configurations and
the random oracle. -/
structure PipelineEnv where
  pc : PipelineConfig := {}
  ccfg : CleanerConfig := {}
  ecfg : EnhancerConfig := {}
  vcfg : EvaluatorConfig := {}
  oracle : Oracle

/-- The enabled stages in the fixed `cleaner → enhancer → evaluator`
order of `_process_chunks`. -/
def pipelineSkillList (env : PipelineEnv) : List (SkillRun PipeState) :=
  (if env.pc.cleaner_enabled then [cleanerSkill env.ccfg] else []) ++
  (if env.pc.enhancer_enabled then [enhancerSkill env.ecfg env.oracle] else []) ++
  (if env.pc.evaluator_enabled then [evaluatorSkill env.vcfg] else [])

/-- `_process_chunks`: run the enabled stages in order via
`_process_batches`; a raised exception propagates. -/
def process_chunks (env : PipelineEnv) (ps : PipeState) (chunks : List DataChunk) :
    Except PyError (PipeState × List DataChunk) :=
  (pipelineSkillList env).foldlM (fun acc sk => process_batches env.pc sk acc.1 acc.2)
    (ps, chunks)

/-- The post-parsing body of `process_files`: process the accumulated
chunks, assemble the dataset with its copied QA pairs, and convert a raised
exception into a `success=False` result carrying the exception text
(parsing and serialisation are the excluded collaborators). -/
def process_files_model (env : PipelineEnv) (parsedChunks : List DataChunk) : ProcessingResult :=
  match (if parsedChunks ≠ [] then process_chunks env {} parsedChunks
         else Except.ok ({}, [])) with
  | Except.ok r =>
    { success := true,
      data := some { chunks := r.2, qa_pairs := assemble_qa_pairs r.2 } }
  | Except.error (PyError.attributeError n) =>
    { success := false,
      error_message := some ("'PipelineConfig' object has no attribute '" ++ n ++ "'") }

/-- `get_processing_report`: the report's `config` section reads
`batch_size`, `max_workers`, `checkpoint_enabled`, `error_handling` and then
`self.pipeline_config.parallel_processing`; `PipelineConfig` defines no such
attribute, so every call raises `AttributeError`. -/
def get_processing_report (_pc : PipelineConfig) : Except PyError (List (String × String)) :=
  Except.error (PyError.attributeError "parallel_processing")

/-!
## Concrete instances used by witnesses and counterexamples
-/

/-- A deterministic choice oracle (always the first option). -/
def oracle0 : Oracle := { qaType := fun _ => 0, templateIdx := fun _ => 0, otherIdx := fun _ => 0 }

/-- A minimal stage for exercising the framework: fails exactly on empty
content, otherwise returns the chunk unchanged. -/
def toySkill : SkillRun Unit :=
  { name := "ToySkill",
    step := fun s c => (s, if c.content = [] then Except.error "empty" else Except.ok c) }

/-- A chunk whose cleaned content fails the quality gate (length 1 < 10). -/
def lowQualityChunk : DataChunk := { id := "c2low", content := "水".toList }

/-- A chunk passing the quality gate, used for the duplicate scenario. -/
def dupChunk1 : DataChunk := { id := "dup1", content := "水文站监测水位流量数据".toList }

/-- A second chunk with content identical to `dupChunk1`. -/
def dupChunk2 : DataChunk := { id := "dup2", content := "水文站监测水位流量数据".toList }

/-- A chunk on which the Enhancer deterministically generates one
content-based QA pair (`5亿` with the `亿` unit suffix). -/
def qaGenChunk : DataChunk := { id := "c4qa", content := "水库蓄水量达5亿立方米，防洪效果显著".toList }

/-- The QA pairs the Enhancer generates on `qaGenChunk`. -/
def qaGenPairs : List QAData := (generate_qa_pairs oracle0 qaGenChunk).toOption.getD []

/-- A nonempty chunk for the framework witnesses. -/
def chunkA : DataChunk := { id := "a", content := ['a'] }

/-- An empty chunk, failing `toySkill`. -/
def chunkB : DataChunk := { id := "b", content := [] }

/-- The text on which basic cleaning is not idempotent: the full-width
quotes map to `<`/`>`, which the second pass strips as an HTML tag. -/
def cexIdemText : Text := "水《库》".toList

/-- Append each keyword, preceded by a single space, to a text (the
formalisation of "adding more domain keywords to otherwise-identical
text"). -/
def withAppendedKeywords (t : Text) (kws : List Text) : Text :=
  kws.foldl (fun acc kw => acc ++ ' ' :: kw) t

/-- A default pipeline environment (default configurations, first-choice
oracle). -/
def envDefault : PipelineEnv := { oracle := oracle0 }

/-!
## Framework lemmas
-/

/-- `process_batch` output length. -/
theorem process_batch_length {σ : Type} (sk : SkillRun σ) (s : σ) (chunks : List DataChunk) :
    (process_batch sk s chunks).2.length = chunks.length := by
  induction chunks generalizing s with
  | nil => rfl
  | cons c rest ih =>
    simp only [process_batch, List.length_cons]
    exact congrArg Nat.succ (ih _)

/-- Pointwise description of `process_batch`: the `i`-th output chunk is the
`i`-th input chunk processed at the state threaded up to position `i`, with
a COMPLETED record appended on success and a FAILED record appended to the
original chunk on failure. -/
theorem process_batch_pointwise {σ : Type} (sk : SkillRun σ) (s : σ) (chunks : List DataChunk)
    (i : Nat) (hi : i < chunks.length) :
    (∀ c', (sk.step (state_at sk s chunks i) (chunks.getD i {})).2 = Except.ok c' →
      (process_batch sk s chunks).2.getD i {} =
        c'.add_process_metadata (completedMeta sk.name)) ∧
    (∀ e, (sk.step (state_at sk s chunks i) (chunks.getD i {})).2 = Except.error e →
      (process_batch sk s chunks).2.getD i {} =
        (chunks.getD i {}).add_process_metadata (failedMeta sk.name e)) := by
  induction chunks generalizing s i with
  | nil => exact absurd hi (Nat.not_lt_zero i)
  | cons c rest ih =>
    cases i with
    | zero =>
      constructor
      · intro c' h
        simp only [process_batch, List.getD_cons_zero]
        simp only [state_at, List.getD_cons_zero] at h
        rw [h]
      · intro e h
        simp only [process_batch, List.getD_cons_zero]
        simp only [state_at, List.getD_cons_zero] at h
        rw [h]
    | succ j =>
      have hj : j < rest.length := Nat.lt_of_succ_lt_succ hi
      have := ih (sk.step s c).1 j hj
      constructor
      · intro c' h
        simp only [process_batch, List.getD_cons_succ]
        simp only [state_at, List.getD_cons_succ] at h ⊢
        exact this.1 c' h
      · intro e h
        simp only [process_batch, List.getD_cons_succ]
        simp only [state_at, List.getD_cons_succ] at h ⊢
        exact this.2 e h

/-- C1: for every chunk list and every stage whose successful single-chunk
transform never shortens a chunk's history (every repository stage only
appends), `process_batch` returns a list of the same length with the `i`-th
output produced from the `i`-th input; a chunk whose transform raises is
retained in place, unmodified except for an appended FAILED record carrying
the error message; and every output element has at least one more history
record than its input counterpart. -/
theorem claim_C1_process_batch_contract {σ : Type} (sk : SkillRun σ)
    (hmono : ∀ s c s' c', sk.step s c = (s', Except.ok c') →
      c.process_metadata.length ≤ c'.process_metadata.length)
    (s : σ) (chunks : List DataChunk) :
    (process_batch sk s chunks).2.length = chunks.length ∧
    (∀ i, i < chunks.length → ∀ e,
      (sk.step (state_at sk s chunks i) (chunks.getD i {})).2 = Except.error e →
      (process_batch sk s chunks).2.getD i {} =
        (chunks.getD i {}).add_process_metadata (failedMeta sk.name e)) ∧
    (∀ i, i < chunks.length →
      (chunks.getD i {}).process_metadata.length + 1 ≤
        ((process_batch sk s chunks).2.getD i {}).process_metadata.length) := by
  refine ⟨process_batch_length sk s chunks, ?_, ?_⟩
  · intro i hi e h
    exact (process_batch_pointwise sk s chunks i hi).2 e h
  · intro i hi
    rcases h : (sk.step (state_at sk s chunks i) (chunks.getD i {})).2 with e | c'
    · rw [(process_batch_pointwise sk s chunks i hi).2 e h]
      simp [DataChunk.add_process_metadata]
    · rw [(process_batch_pointwise sk s chunks i hi).1 c' h]
      have hle := hmono (state_at sk s chunks i) (chunks.getD i {})
        (sk.step (state_at sk s chunks i) (chunks.getD i {})).1 c'
        (by rw [← h])
      simp only [DataChunk.add_process_metadata, List.length_append, List.length_cons,
        List.length_nil]
      omega

/-- Witness for C1 at a concrete two-chunk batch under `toySkill` (second
chunk fails with "empty"). -/
theorem claim_C1_witness :
    (process_batch toySkill () [chunkA, chunkB]).2.length = 2 ∧
    (process_batch toySkill () [chunkA, chunkB]).2.getD 1 {} =
      chunkB.add_process_metadata (failedMeta "ToySkill" "empty") := by
  have hmono : ∀ s c s' c', toySkill.step s c = (s', Except.ok c') →
      c.process_metadata.length ≤ c'.process_metadata.length := by
    intro s c s' c' h
    have h2 := congrArg Prod.snd h
    simp only [toySkill] at h2
    split at h2
    · exact absurd h2 (by simp)
    · cases h2
      exact Nat.le_refl _
  have main := claim_C1_process_batch_contract toySkill hmono () [chunkA, chunkB]
  refine ⟨main.1, ?_⟩
  exact main.2.1 1 (by decide) "empty" rfl

/-!
## Cleaner lemmas
-/

/-- A registered hash forces the duplicate verdict without re-registration. -/
theorem is_duplicate_of_mem (cfg : CleanerConfig) (st : CleanerState) (text : Text)
    (id : String) (h : text ∈ st.seen_hashes) : is_duplicate cfg st text id = (true, st) := by
  unfold is_duplicate
  rw [if_pos h]

/-- The duplicate verdict does not depend on the chunk id (only the
registration does). -/
theorem is_duplicate_fst_id_irrelevant (cfg : CleanerConfig) (st : CleanerState) (text : Text)
    (id1 id2 : String) :
    (is_duplicate cfg st text id1).1 = (is_duplicate cfg st text id2).1 := by
  unfold is_duplicate
  by_cases h1 : text ∈ st.seen_hashes
  · rw [if_pos h1, if_pos h1]
  · rw [if_neg h1, if_neg h1]
    by_cases h2 : (st.seen_contents.any fun p =>
        cfg.similarity_threshold < calculate_similarity text p.2) = true
    · rw [if_pos h2, if_pos h2]
    · rw [if_neg h2, if_neg h2]

/-- A duplicate leaves the registry unchanged. -/
theorem is_duplicate_true_state (cfg : CleanerConfig) (st : CleanerState) (text : Text)
    (id : String) (h : (is_duplicate cfg st text id).1 = true) :
    (is_duplicate cfg st text id).2 = st := by
  unfold is_duplicate at h ⊢
  by_cases h1 : text ∈ st.seen_hashes
  · rw [if_pos h1]
  · rw [if_neg h1] at h ⊢
    by_cases h2 : (st.seen_contents.any fun p =>
        cfg.similarity_threshold < calculate_similarity text p.2) = true
    · rw [if_pos h2]
    · rw [if_neg h2] at h
      simp at h

/-- A non-duplicate is registered: its hash joins `seen_hashes`. -/
theorem is_duplicate_false_registers (cfg : CleanerConfig) (st : CleanerState) (text : Text)
    (id : String) (h : (is_duplicate cfg st text id).1 = false) :
    text ∈ (is_duplicate cfg st text id).2.seen_hashes := by
  unfold is_duplicate at h ⊢
  by_cases h1 : text ∈ st.seen_hashes
  · rw [if_pos h1] at h
    simp at h
  · rw [if_neg h1] at h ⊢
    by_cases h2 : (st.seen_contents.any fun p =>
        cfg.similarity_threshold < calculate_similarity text p.2) = true
    · rw [if_pos h2] at h
      simp at h
    · rw [if_neg h2]
      simp

/-- `process_single` on a chunk whose cleaned text fails the quality gate:
the chunk and the registry are returned untouched (no history record of any
kind is appended). -/
theorem cleaner_ps_quality_fail (cfg : CleanerConfig) (st : CleanerState) (c : DataChunk)
    (hv : validate_input c = true)
    (hq : quality_check cfg (clean_all_stages cfg c.content c.language) = false) :
    cleaner_process_single cfg st c = (st, c) := by
  unfold cleaner_process_single
  simp [hv, hq]

/-- `process_single` on a duplicate: the registry is unchanged and the chunk
is returned with its original content and one appended SKIPPED record. -/
theorem cleaner_ps_duplicate (cfg : CleanerConfig) (st : CleanerState) (c : DataChunk)
    (hv : validate_input c = true)
    (hq : quality_check cfg (clean_all_stages cfg c.content c.language) = true)
    (hrd : cfg.remove_duplicates = true)
    (hdup : (is_duplicate cfg st (clean_all_stages cfg c.content c.language) c.id).1 = true) :
    cleaner_process_single cfg st c =
      (st, c.add_process_metadata (cleanerMeta ProcessingStatus.skipped (some "重复数据"))) := by
  unfold cleaner_process_single
  rcases hD : is_duplicate cfg st (clean_all_stages cfg c.content c.language) c.id with ⟨b, st'⟩
  have hb : b = true := by rw [hD] at hdup; exact hdup
  have hst : st' = st := by
    have := is_duplicate_true_state cfg st (clean_all_stages cfg c.content c.language) c.id hdup
    rw [hD] at this
    exact this
  subst hb hst
  simp [hv, hq, hrd, hD]

/-- `process_single` on a fresh (non-duplicate) chunk: the returned registry
is the registered one. -/
theorem cleaner_ps_fresh_state (cfg : CleanerConfig) (st : CleanerState) (c : DataChunk)
    (hv : validate_input c = true)
    (hq : quality_check cfg (clean_all_stages cfg c.content c.language) = true)
    (hrd : cfg.remove_duplicates = true)
    (hdup : (is_duplicate cfg st (clean_all_stages cfg c.content c.language) c.id).1 = false) :
    (cleaner_process_single cfg st c).1 =
      (is_duplicate cfg st (clean_all_stages cfg c.content c.language) c.id).2 := by
  unfold cleaner_process_single
  rcases hD : is_duplicate cfg st (clean_all_stages cfg c.content c.language) c.id with ⟨b, st'⟩
  have hb : b = false := by rw [hD] at hdup; exact hdup
  subst hb
  simp [hv, hq, hrd, hD]

/-- C2 counterexample: the chunk `水` is rejected by the Cleaner's quality
gate (cleaned length 1 < `min_text_length` 10), yet `process_single` returns
it completely unchanged — no SKIPPED (nor any other) history record is
appended, contradicting the claim that quality-gate rejection is recorded as
a SKIPPED status. -/
theorem claim_C2_counterexample :
    quality_check {} (clean_all_stages {} lowQualityChunk.content lowQualityChunk.language) = false ∧
    (cleaner_process_single {} {} lowQualityChunk).2 = lowQualityChunk ∧
    (cleaner_process_single {} {} lowQualityChunk).2.process_metadata = [] := by
  refine ⟨by decide, by decide, by decide⟩

/-- C2 amended: only the duplicate gate records a SKIPPED status; a chunk
rejected by the quality gate is returned unmodified (it is not removed from
the batch, but `process_single` appends no record at all — the batch
framework then marks it COMPLETED). -/
theorem claim_C2_amended (cfg : CleanerConfig) (st : CleanerState) (c : DataChunk)
    (hv : validate_input c = true) :
    (quality_check cfg (clean_all_stages cfg c.content c.language) = false →
      cleaner_process_single cfg st c = (st, c)) ∧
    (quality_check cfg (clean_all_stages cfg c.content c.language) = true →
      cfg.remove_duplicates = true →
      (is_duplicate cfg st (clean_all_stages cfg c.content c.language) c.id).1 = true →
      (cleaner_process_single cfg st c).2 =
        c.add_process_metadata (cleanerMeta ProcessingStatus.skipped (some "重复数据"))) := by
  constructor
  · intro hq
    exact cleaner_ps_quality_fail cfg st c hv hq
  · intro hq hrd hdup
    rw [cleaner_ps_duplicate cfg st c hv hq hrd hdup]

/-- Witness for C2 amended: the quality-fail branch at `水` and the
duplicate branch at a registered content. -/
theorem claim_C2_amended_witness :
    cleaner_process_single {} {} lowQualityChunk = ({}, lowQualityChunk) ∧
    (cleaner_process_single {}
        { seen_hashes := ["水文站监测水位流量数据".toList], seen_contents := [] } dupChunk1).2 =
      dupChunk1.add_process_metadata (cleanerMeta ProcessingStatus.skipped (some "重复数据")) := by
  constructor
  · exact (claim_C2_amended {} {} lowQualityChunk (by decide)).1 (by decide)
  · exact (claim_C2_amended {}
      { seen_hashes := ["水文站监测水位流量数据".toList], seen_contents := [] } dupChunk1
      (by decide)).2 (by decide) rfl (by decide)

/-- C3: (a) a chunk flagged as a duplicate is returned with its original,
uncleaned content unchanged and exactly one SKIPPED history record appended;
(b) for two chunks with identical content and language whose cleaned text
passes the quality gate, processing the first (from any registry state) and
then the second marks the second chunk SKIPPED with its content unchanged. -/
theorem claim_C3_duplicate_detection (cfg : CleanerConfig) (st : CleanerState)
    (c1 c2 : DataChunk)
    (hcontent : c1.content = c2.content) (hlang : c1.language = c2.language)
    (hv : validate_input c1 = true)
    (hq : quality_check cfg (clean_all_stages cfg c1.content c1.language) = true)
    (hrd : cfg.remove_duplicates = true) :
    ((is_duplicate cfg st (clean_all_stages cfg c1.content c1.language) c1.id).1 = true →
      cleaner_process_single cfg st c1 =
        (st, c1.add_process_metadata (cleanerMeta ProcessingStatus.skipped (some "重复数据")))) ∧
    (cleaner_process_single cfg (cleaner_process_single cfg st c1).1 c2).2 =
      c2.add_process_metadata (cleanerMeta ProcessingStatus.skipped (some "重复数据")) := by
  have hv2 : validate_input c2 = true := by
    unfold validate_input at hv ⊢
    rw [← hcontent]
    exact hv
  have hclean2 : clean_all_stages cfg c2.content c2.language =
      clean_all_stages cfg c1.content c1.language := by
    rw [hcontent, hlang]
  have hq2 : quality_check cfg (clean_all_stages cfg c2.content c2.language) = true := by
    rw [hclean2]; exact hq
  constructor
  · intro hdup
    exact cleaner_ps_duplicate cfg st c1 hv hq hrd hdup
  · rcases hd : (is_duplicate cfg st (clean_all_stages cfg c1.content c1.language) c1.id).1 with _ | _
    · -- first chunk fresh: it is registered, so the second is an exact-hash duplicate
      have hstate := cleaner_ps_fresh_state cfg st c1 hv hq hrd hd
      have hmem := is_duplicate_false_registers cfg st
        (clean_all_stages cfg c1.content c1.language) c1.id hd
      rw [← hstate] at hmem
      have hdup2 : (is_duplicate cfg (cleaner_process_single cfg st c1).1
          (clean_all_stages cfg c2.content c2.language) c2.id).1 = true := by
        rw [hclean2, is_duplicate_of_mem cfg _ _ c2.id hmem]
      rw [cleaner_ps_duplicate cfg _ c2 hv2 hq2 hrd hdup2]
    · -- first chunk already a duplicate: the registry is unchanged and the
      -- second chunk repeats the same duplicate verdict
      have h1 := cleaner_ps_duplicate cfg st c1 hv hq hrd hd
      have hst1 : (cleaner_process_single cfg st c1).1 = st := by rw [h1]
      have hdup2 : (is_duplicate cfg (cleaner_process_single cfg st c1).1
          (clean_all_stages cfg c2.content c2.language) c2.id).1 = true := by
        rw [hst1, hclean2,
          is_duplicate_fst_id_irrelevant cfg st _ c2.id c1.id]
        exact hd
      rw [cleaner_ps_duplicate cfg _ c2 hv2 hq2 hrd hdup2]

/-- Witness for C3: two identical chunks through the default Cleaner from an
empty registry — the second is marked SKIPPED. -/
theorem claim_C3_witness :
    (cleaner_process_single {} (cleaner_process_single {} {} dupChunk1).1 dupChunk2).2 =
      dupChunk2.add_process_metadata (cleanerMeta ProcessingStatus.skipped (some "重复数据")) := by
  exact (claim_C3_duplicate_detection {} {} dupChunk1 dupChunk2 rfl rfl
    (by decide) (by decide) rfl).2

/-!
## Idempotence of basic cleaning (C7)

Basic cleaning is the identity on text made of CJK ideographs only: every
pattern and every punctuation-map key starts outside the CJK block.
-/

/-- A CJK character differs from any character below the block. -/
theorem char_ne_of_lt {c : Char} (hc : 0x4e00 ≤ c.toNat) {d : Char}
    (hd : d.toNat < 0x4e00) : c ≠ d := by
  intro h
  rw [h] at hc
  omega

/-- A CJK character differs from any character above the block. -/
theorem char_ne_of_gt {c : Char} (hc : c.toNat ≤ 0x9fff) {d : Char}
    (hd : 0x9fff < d.toNat) : c ≠ d := by
  intro h
  rw [h] at hc
  omega

/-- Unpack `isCJK`. -/
theorem isCJK_bounds {c : Char} (h : isCJK c = true) :
    0x4e00 ≤ c.toNat ∧ c.toNat ≤ 0x9fff := by
  simpa [isCJK, Bool.and_eq_true, decide_eq_true_eq] using h

/-- All members of an all-CJK text differ from a low character. -/
theorem cjk_all_ne_lo {t : Text} (h : ∀ c ∈ t, isCJK c = true) (d : Char)
    (hd : d.toNat < 0x4e00) : ∀ c ∈ t, c ≠ d :=
  fun c hc => char_ne_of_lt (isCJK_bounds (h c hc)).1 hd

/-- All members of an all-CJK text differ from a high character. -/
theorem cjk_all_ne_hi {t : Text} (h : ∀ c ∈ t, isCJK c = true) (d : Char)
    (hd : 0x9fff < d.toNat) : ∀ c ∈ t, c ≠ d :=
  fun c hc => char_ne_of_gt (isCJK_bounds (h c hc)).2 hd

/-- `pyReplaceAux` is the identity when the pattern head occurs nowhere. -/
theorem pyReplaceAux_noop (ph : Char) (pt repl : Text) :
    ∀ (fuel : Nat) (t : Text), (∀ c ∈ t, c ≠ ph) → pyReplaceAux (ph :: pt) repl fuel t = t := by
  intro fuel
  induction fuel with
  | zero => intro t _; rfl
  | succ n ih =>
    intro t h
    cases t with
    | nil => rfl
    | cons c cs =>
      have hne : ¬ ((ph :: pt) ≠ [] ∧ (ph :: pt).isPrefixOf (c :: cs)) := by
        rintro ⟨-, hpre⟩
        simp only [List.isPrefixOf_cons₂] at hpre
        exact h c (List.mem_cons_self c cs) (by
          have := (Bool.and_eq_true _ _).mp hpre
          exact (beq_iff_eq.mp this.1).symm)
      rw [pyReplaceAux, if_neg hne]
      exact congrArg (c :: ·) (ih cs (fun d hd => h d (List.mem_cons_of_mem c hd)))

/-- `pyReplace` is the identity when the pattern head occurs nowhere. -/
theorem pyReplace_noop (ph : Char) (pt repl : Text) (t : Text) (h : ∀ c ∈ t, c ≠ ph) :
    pyReplace (ph :: pt) repl t = t :=
  pyReplaceAux_noop ph pt repl t.length t h

/-- `pySubAux` is the identity when the matcher fails on every non-empty
suffix, whatever the threaded previous character. -/
theorem pySubAux_noop (m : Matcher) :
    ∀ (fuel : Nat) (prev : Option Char) (t : Text),
      (∀ prev' c cs, (c :: cs) <:+ t → m prev' (c :: cs) = none) →
      pySubAux m fuel prev t = t := by
  intro fuel
  induction fuel with
  | zero => intro prev t _; rfl
  | succ n ih =>
    intro prev t h
    cases t with
    | nil => rfl
    | cons c cs =>
      rw [pySubAux, h prev c cs List.suffix_rfl]
      exact congrArg (c :: ·) (ih (some c) cs
        (fun prev' d ds hsuf => h prev' d ds (hsuf.trans (List.suffix_cons c cs))))

/-- `pySub` is the identity when the matcher fails on every non-empty
suffix. -/
theorem pySub_noop (m : Matcher) (t : Text)
    (h : ∀ prev' c cs, (c :: cs) <:+ t → m prev' (c :: cs) = none) :
    pySub m t = t :=
  pySubAux_noop m t.length none t h

/-- Membership of the head of a suffix. -/
theorem head_mem_of_suffix {c : Char} {cs t : Text} (h : (c :: cs) <:+ t) : c ∈ t :=
  h.subset (List.mem_cons_self c cs)

/-!
### Per-matcher failure on CJK heads
-/

/-- CJK characters are not Python whitespace. -/
theorem isPySpace_of_cjk {c : Char} (h : isCJK c = true) : isPySpace c = false := by
  obtain ⟨h1, -⟩ := isCJK_bounds h
  simp only [isPySpace, Bool.or_eq_false_iff, decide_eq_false_iff_not]
  refine ⟨⟨⟨⟨⟨?_, ?_⟩, ?_⟩, ?_⟩, ?_⟩, ?_⟩ <;>
    · intro he
      rw [he] at h1
      exact absurd h1 (by decide)

/-- CJK characters are not ASCII letters. -/
theorem isAsciiLetter_of_cjk {c : Char} (h : isCJK c = true) : isAsciiLetter c = false := by
  obtain ⟨h1, -⟩ := isCJK_bounds h
  simp only [isAsciiLetter, Bool.or_eq_false_iff, Bool.and_eq_false_iff,
    decide_eq_false_iff_not, Char.not_le]
  constructor
  · right
    exact lt_of_le_of_lt (by decide : ('z' : Char) ≤ Char.ofNat 0x4dff) (by
      have : (Char.ofNat 0x4dff).toNat < c.toNat := by
        simpa using Nat.lt_of_lt_of_le (by decide) h1
      exact Char.lt_iff_val_lt_val.mpr (by simpa [Char.lt_iff_val_lt_val] using this))
  · right
    exact lt_of_le_of_lt (by decide : ('Z' : Char) ≤ Char.ofNat 0x4dff) (by
      have : (Char.ofNat 0x4dff).toNat < c.toNat := by
        simpa using Nat.lt_of_lt_of_le (by decide) h1
      exact Char.lt_iff_val_lt_val.mpr (by simpa [Char.lt_iff_val_lt_val] using this))

/-- CJK characters are not ASCII digits. -/
theorem isAsciiDigit_of_cjk {c : Char} (h : isCJK c = true) : isAsciiDigit c = false := by
  obtain ⟨h1, -⟩ := isCJK_bounds h
  simp only [isAsciiDigit, Bool.and_eq_false_iff, decide_eq_false_iff_not, Char.not_le]
  right
  exact lt_of_le_of_lt (by decide : ('9' : Char) ≤ Char.ofNat 0x4dff) (by
    have : (Char.ofNat 0x4dff).toNat < c.toNat := by
      simpa using Nat.lt_of_lt_of_le (by decide) h1
    exact Char.lt_iff_val_lt_val.mpr (by simpa [Char.lt_iff_val_lt_val] using this))

/-- `pyLower` fixes CJK characters. -/
theorem pyLower_of_cjk {c : Char} (h : isCJK c = true) : pyLower c = c := by
  obtain ⟨h1, -⟩ := isCJK_bounds h
  unfold pyLower
  rw [if_neg]
  simp only [Bool.and_eq_true, decide_eq_true_eq, not_and, Char.not_le]
  intro _
  exact lt_of_le_of_lt (by decide : ('Z' : Char) ≤ Char.ofNat 0x4dff) (by
    have : (Char.ofNat 0x4dff).toNat < c.toNat := by
      simpa using Nat.lt_of_lt_of_le (by decide) h1
    exact Char.lt_iff_val_lt_val.mpr (by simpa [Char.lt_iff_val_lt_val] using this))

/-- `wsMatcher` fails off whitespace. -/
theorem wsMatcher_noop (prev : Option Char) {c : Char} (cs : Text) (h : isPySpace c = false) :
    wsMatcher prev (c :: cs) = none := by
  simp [wsMatcher, h]

/-- `nlMatcher` fails off `\n`. -/
theorem nlMatcher_noop (prev : Option Char) {c : Char} (cs : Text) (h : c ≠ '\n') :
    nlMatcher prev (c :: cs) = none := by
  simp [nlMatcher, h]

/-- `tagMatcher` fails off `<`. -/
theorem tagMatcher_noop (prev : Option Char) {c : Char} (cs : Text) (h : c ≠ '<') :
    tagMatcher prev (c :: cs) = none := by
  simp [tagMatcher, h]

/-- `urlMatcher` fails when the head does not lower to `h`. -/
theorem urlMatcher_noop (prev : Option Char) {c : Char} (cs : Text) (h : pyLower c ≠ 'h') :
    urlMatcher prev (c :: cs) = none := by
  match cs with
  | [] => rfl
  | [c2] => rfl
  | [c2, c3] => rfl
  | c2 :: c3 :: c4 :: rest =>
    simp only [urlMatcher]
    rw [if_neg]
    intro hand
    exact h hand.1

/-- `emailMatcher` fails off the local-part class. -/
theorem emailMatcher_noop (prev : Option Char) {c : Char} (cs : Text)
    (h : isLocalChar c = false) : emailMatcher prev (c :: cs) = none := by
  simp [emailMatcher, h]

/-- `ellipsisMatcher` fails off `.!?`. -/
theorem ellipsisMatcher_noop (prev : Option Char) {c : Char} (cs : Text)
    (h : (c = '.' || c = '!' || c = '?') = false) :
    ellipsisMatcher prev (c :: cs) = none := by
  simp only [ellipsisMatcher]
  rw [if_neg]
  simp only [Bool.or_eq_false_iff, decide_eq_false_iff_not] at h
  simp [h.1.1, h.1.2, h.2]

/-- `digitLetterMatcher` fails off digits. -/
theorem digitLetterMatcher_noop (prev : Option Char) {c : Char} (cs : Text)
    (h : isAsciiDigit c = false) : digitLetterMatcher prev (c :: cs) = none := by
  match cs with
  | [] => rfl
  | c2 :: rest => simp [digitLetterMatcher, h]

/-- `spacePunctMatcher` fails off the space. -/
theorem spacePunctMatcher_noop (prev : Option Char) {c : Char} (cs : Text) (h : c ≠ ' ') :
    spacePunctMatcher prev (c :: cs) = none := by
  simp [spacePunctMatcher, h]

/-- `punctSpaceMatcher` fails off the punctuation class. -/
theorem punctSpaceMatcher_noop (prev : Option Char) {c : Char} (cs : Text)
    (h : isFixPunct c = false) : punctSpaceMatcher prev (c :: cs) = none := by
  match cs with
  | [] => rfl
  | c2 :: rest => simp [punctSpaceMatcher, h]

/-- `digitCommaMatcher` fails off digits. -/
theorem digitCommaMatcher_noop (prev : Option Char) {c : Char} (cs : Text)
    (h : isAsciiDigit c = false) : digitCommaMatcher prev (c :: cs) = none := by
  match cs with
  | [] => rfl
  | [c2] => rfl
  | [c2, c3] => rfl
  | [c2, c3, c4] => rfl
  | c2 :: c3 :: c4 :: c5 :: rest => simp [digitCommaMatcher, h]

/-- `parenOpenMatcher` fails off `(`. -/
theorem parenOpenMatcher_noop (prev : Option Char) {c : Char} (cs : Text) (h : c ≠ '(') :
    parenOpenMatcher prev (c :: cs) = none := by
  simp [parenOpenMatcher, h]

/-- `parenCloseMatcher` fails when the head is neither whitespace nor `)`. -/
theorem parenCloseMatcher_noop (prev : Option Char) {c : Char} (cs : Text)
    (hs : isPySpace c = false) (h : c ≠ ')') : parenCloseMatcher prev (c :: cs) = none := by
  simp [parenCloseMatcher, List.dropWhile_cons, hs, h]

/-- `spaceTabMatcher` fails off space/tab. -/
theorem spaceTabMatcher_noop (prev : Option Char) {c : Char} (cs : Text)
    (h : isSpaceTab c = false) : spaceTabMatcher prev (c :: cs) = none := by
  simp [spaceTabMatcher, h]

/-- `nlSpaceTabMatcher` fails off `\n`. -/
theorem nlSpaceTabMatcher_noop (prev : Option Char) {c : Char} (cs : Text) (h : c ≠ '\n') :
    nlSpaceTabMatcher prev (c :: cs) = none := by
  simp [nlSpaceTabMatcher, h]

/-- `spaceTabNlMatcher` fails off space/tab. -/
theorem spaceTabNlMatcher_noop (prev : Option Char) {c : Char} (cs : Text)
    (h : isSpaceTab c = false) : spaceTabNlMatcher prev (c :: cs) = none := by
  simp [spaceTabNlMatcher, h]

/-- CJK characters are not space/tab. -/
theorem isSpaceTab_of_cjk {c : Char} (h : isCJK c = true) : isSpaceTab c = false := by
  obtain ⟨h1, -⟩ := isCJK_bounds h
  simp only [isSpaceTab, Bool.or_eq_false_iff, decide_eq_false_iff_not]
  constructor <;>
    · intro he
      rw [he] at h1
      exact absurd h1 (by decide)

/-- `pyStrip` is the identity on whitespace-free text. -/
theorem pyStrip_noop (t : Text) (h : ∀ c ∈ t, isPySpace c = false) : pyStrip t = t := by
  unfold pyStrip
  have h1 : t.dropWhile isPySpace = t := by
    cases t with
    | nil => rfl
    | cons c cs =>
      rw [List.dropWhile_cons, h c (List.mem_cons_self c cs)]
      simp
  rw [h1]
  have h2 : t.reverse.dropWhile isPySpace = t.reverse := by
    cases hr : t.reverse with
    | nil => rfl
    | cons c cs =>
      rw [List.dropWhile_cons, h c (by rw [← List.mem_reverse, hr]; exact List.mem_cons_self c cs)]
      simp
  rw [h2, List.reverse_reverse]

/-- The Chinese-punctuation mapping fixes all-CJK text: no map key starts
inside the CJK block. -/
theorem applyChinesePunctuationMap_cjk_id (t : Text) (h : ∀ c ∈ t, isCJK c = true) :
    applyChinesePunctuationMap t = t := by
  simp only [applyChinesePunctuationMap, chinesePunctuationPairs, List.foldl_cons,
    List.foldl_nil]
  rw [pyReplace_noop _ _ _ t (cjk_all_ne_hi h '，' (by decide))]
  rw [pyReplace_noop _ _ _ t (cjk_all_ne_lo h '。' (by decide))]
  rw [pyReplace_noop _ _ _ t (cjk_all_ne_hi h '！' (by decide))]
  rw [pyReplace_noop _ _ _ t (cjk_all_ne_hi h '？' (by decide))]
  rw [pyReplace_noop _ _ _ t (cjk_all_ne_hi h '；' (by decide))]
  rw [pyReplace_noop _ _ _ t (cjk_all_ne_hi h '：' (by decide))]
  rw [pyReplace_noop _ _ _ t (cjk_all_ne_hi h '（' (by decide))]
  rw [pyReplace_noop _ _ _ t (cjk_all_ne_hi h '）' (by decide))]
  rw [pyReplace_noop _ _ _ t (cjk_all_ne_lo h '【' (by decide))]
  rw [pyReplace_noop _ _ _ t (cjk_all_ne_lo h '】' (by decide))]
  rw [pyReplace_noop _ _ _ t (cjk_all_ne_lo h '《' (by decide))]
  rw [pyReplace_noop _ _ _ t (cjk_all_ne_lo h '》' (by decide))]
  rw [pyReplace_noop _ _ _ t (cjk_all_ne_lo h '"' (by decide))]
  rw [List.cons_append, pyReplace_noop _ _ _ t (cjk_all_ne_lo h ':' (by decide))]

/-- Basic cleaning is the identity on text consisting solely of CJK
ideographs: every cleanup pattern, every punctuation-map key and the
whitespace normalisation only fire on characters outside the block. -/
theorem basic_text_cleaning_cjk_id (cfg : CleanerConfig) (t : Text)
    (h : ∀ c ∈ t, isCJK c = true) : basic_text_cleaning cfg t = t := by
  by_cases ht : t = []
  · simp [basic_text_cleaning, ht]
  have hm : ∀ c ∈ t, isCJK c = true := h
  have e1 : pyReplace ['\r', '\n'] ['\n'] t = t :=
    pyReplace_noop _ _ _ t (cjk_all_ne_lo h '\r' (by decide))
  have e2 : pyReplace ['\r'] ['\n'] t = t :=
    pyReplace_noop _ _ _ t (cjk_all_ne_lo h '\r' (by decide))
  have e3 : pySub wsMatcher t = t :=
    pySub_noop _ t (fun prev c cs hsuf =>
      wsMatcher_noop prev cs (isPySpace_of_cjk (h c (head_mem_of_suffix hsuf))))
  have e4 : pySub nlMatcher t = t :=
    pySub_noop _ t (fun prev c cs hsuf =>
      nlMatcher_noop prev cs
        (char_ne_of_lt (isCJK_bounds (h c (head_mem_of_suffix hsuf))).1 (by decide)))
  have e5 : pySub tagMatcher t = t :=
    pySub_noop _ t (fun prev c cs hsuf =>
      tagMatcher_noop prev cs
        (char_ne_of_lt (isCJK_bounds (h c (head_mem_of_suffix hsuf))).1 (by decide)))
  have e6 : pySub urlMatcher t = t :=
    pySub_noop _ t (fun prev c cs hsuf => by
      refine urlMatcher_noop prev cs ?_
      rw [pyLower_of_cjk (h c (head_mem_of_suffix hsuf))]
      exact char_ne_of_lt (isCJK_bounds (h c (head_mem_of_suffix hsuf))).1 (by decide))
  have e7 : pySub emailMatcher t = t :=
    pySub_noop _ t (fun prev c cs hsuf => by
      refine emailMatcher_noop prev cs ?_
      have hc := h c (head_mem_of_suffix hsuf)
      have hb := (isCJK_bounds hc).1
      simp [isLocalChar, isAsciiLetter_of_cjk hc, isAsciiDigit_of_cjk hc,
        decide_eq_false (char_ne_of_lt hb (by decide) : c ≠ '.'),
        decide_eq_false (char_ne_of_lt hb (by decide) : c ≠ '_'),
        decide_eq_false (char_ne_of_lt hb (by decide) : c ≠ '%'),
        decide_eq_false (char_ne_of_lt hb (by decide) : c ≠ '+'),
        decide_eq_false (char_ne_of_lt hb (by decide) : c ≠ '-')])
  have e8 : pySub ellipsisMatcher t = t :=
    pySub_noop _ t (fun prev c cs hsuf => by
      refine ellipsisMatcher_noop prev cs ?_
      have hb := (isCJK_bounds (h c (head_mem_of_suffix hsuf))).1
      simp [decide_eq_false (char_ne_of_lt hb (by decide) : c ≠ '.'),
        decide_eq_false (char_ne_of_lt hb (by decide) : c ≠ '!'),
        decide_eq_false (char_ne_of_lt hb (by decide) : c ≠ '?')])
  have e9 : pySub digitLetterMatcher t = t :=
    pySub_noop _ t (fun prev c cs hsuf =>
      digitLetterMatcher_noop prev cs (isAsciiDigit_of_cjk (h c (head_mem_of_suffix hsuf))))
  have e10 : applyChinesePunctuationMap t = t := applyChinesePunctuationMap_cjk_id t h
  have e11 : pySub spaceTabMatcher t = t :=
    pySub_noop _ t (fun prev c cs hsuf =>
      spaceTabMatcher_noop prev cs (isSpaceTab_of_cjk (h c (head_mem_of_suffix hsuf))))
  have e12 : pySub nlSpaceTabMatcher t = t :=
    pySub_noop _ t (fun prev c cs hsuf =>
      nlSpaceTabMatcher_noop prev cs
        (char_ne_of_lt (isCJK_bounds (h c (head_mem_of_suffix hsuf))).1 (by decide)))
  have e13 : pySub spaceTabNlMatcher t = t :=
    pySub_noop _ t (fun prev c cs hsuf =>
      spaceTabNlMatcher_noop prev cs (isSpaceTab_of_cjk (h c (head_mem_of_suffix hsuf))))
  have e14 : pyStrip t = t :=
    pyStrip_noop t (fun c hc => isPySpace_of_cjk (h c hc))
  simp only [basic_text_cleaning, if_neg ht, e1, e2, e3, e4, e5, e6, e7, e8, e9, e10, e11,
    e12, e13, e14]
  split <;> split <;> simp [e11, e12, e13, e14]

/-- C7 counterexample: on `水《库》` basic cleaning is not idempotent — the
first pass maps the full-width quotes to `<`/`>` (after the tag pattern has
already run), and the second pass strips the resulting `<库>` as an HTML
tag, so cleaning the cleaned text changes it again. -/
theorem claim_C7_counterexample :
    basic_text_cleaning {} (basic_text_cleaning {} cexIdemText) ≠
      basic_text_cleaning {} cexIdemText := by
  decide

/-- C7 amended: basic cleaning is not idempotent in general (the
Chinese-punctuation mapping runs after the regex patterns and can feed them
on a second pass); it is idempotent — indeed the identity — on text made
solely of CJK ideographs, for every configuration. -/
theorem claim_C7_amended (cfg : CleanerConfig) (t : Text)
    (h : ∀ c ∈ t, isCJK c = true) :
    basic_text_cleaning cfg (basic_text_cleaning cfg t) = basic_text_cleaning cfg t := by
  rw [basic_text_cleaning_cjk_id cfg t h, basic_text_cleaning_cjk_id cfg t h]

/-- Witness for C7 amended at `水库`. -/
theorem claim_C7_amended_witness :
    basic_text_cleaning {} (basic_text_cleaning {} "水库".toList) =
      basic_text_cleaning {} "水库".toList :=
  claim_C7_amended {} "水库".toList (by decide)

/-!
## Score bounds (C5)
-/

/-- Clamping with `min 1` keeps a non-negative value in `[0,1]`. -/
theorem clamp01 {x : ℚ} (hx : 0 ≤ x) : 0 ≤ min 1 x ∧ min 1 x ≤ 1 :=
  ⟨le_min (by norm_num) hx, min_le_left 1 x⟩

/-- A two-constant conditional with non-negative branches is non-negative. -/
theorem ite_nonneg {P : Prop} [Decidable P] {a b : ℚ} (ha : 0 ≤ a) (hb : 0 ≤ b) :
    0 ≤ if P then a else b := by
  split <;> assumption

/-- Completeness lies in `[0,1]`. -/
theorem evaluate_completeness_bounds (content : Text) (extra : ExtraData) :
    0 ≤ evaluate_completeness content extra ∧ evaluate_completeness content extra ≤ 1 := by
  unfold evaluate_completeness
  apply clamp01
  have hA : (0:ℚ) ≤ min 1 ((content.length : ℚ) / 200) := (clamp01 (by positivity)).1
  have hB : (0:ℚ) ≤
      (if content.any isAsciiDigit then 2/10 else 0) +
      (if 2 ≤ (extra.extracted_terms.getD []).length then 3/10 else 0) +
      (if causalWords.any (fun w => pyContains content w) then 2/10 else 0) +
      (if applicationWords.any (fun w => pyContains content w) then 3/10 else 0) := by
    have h1 := ite_nonneg (P := content.any isAsciiDigit = true)
      (a := (2:ℚ)/10) (b := 0) (by norm_num) le_rfl
    have h2 := ite_nonneg (P := 2 ≤ (extra.extracted_terms.getD []).length)
      (a := (3:ℚ)/10) (b := 0) (by norm_num) le_rfl
    have h3 := ite_nonneg (P := (causalWords.any fun w => pyContains content w) = true)
      (a := (2:ℚ)/10) (b := 0) (by norm_num) le_rfl
    have h4 := ite_nonneg (P := (applicationWords.any fun w => pyContains content w) = true)
      (a := (3:ℚ)/10) (b := 0) (by norm_num) le_rfl
    exact add_nonneg (add_nonneg (add_nonneg h1 h2) h3) h4
  have hC : (0:ℚ) ≤ min 1 ((wordCount content : ℚ) / 50) := (clamp01 (by positivity)).1
  exact add_nonneg (add_nonneg (mul_nonneg hA (by norm_num)) (mul_nonneg hB (by norm_num)))
    (mul_nonneg hC (by norm_num))

/-- Relevance lies in `[0,1]`. -/
theorem evaluate_relevance_bounds (content : Text) :
    0 ≤ evaluate_relevance content ∧ evaluate_relevance content ≤ 1 := by
  unfold evaluate_relevance
  apply clamp01
  have h1 : (0:ℚ) ≤
      ((hydro_keywords.countP fun kw => pyContains (lowerText content) (lowerText kw)) : ℚ) /
        (hydro_keywords.length : ℚ) * (4/10) := by positivity
  have h2 : (0:ℚ) ≤
      (if (cjkLatinTokens content) ≠ [] then
        min 1 ((((cjkLatinTokens content).countP is_hydro_word : ℚ) /
          ((cjkLatinTokens content).length : ℚ)) * 5) * (3/10)
      else 0) := by
    apply ite_nonneg _ le_rfl
    exact mul_nonneg (clamp01 (by positivity)).1 (by norm_num)
  have h3 : (0:ℚ) ≤
      ((relevanceDomainPatterns.countP fun pats => pats.any fun p => pyContains content p) : ℚ) *
        (25/100) * (3/10) := by positivity
  exact add_nonneg (add_nonneg h1 h2) h3

/-- Consistency lies in `[0,1]` (the final clamp). -/
theorem evaluate_consistency_bounds (content : Text) :
    0 ≤ evaluate_consistency content ∧ evaluate_consistency content ≤ 1 := by
  unfold evaluate_consistency
  exact ⟨le_max_left 0 _, max_le (by norm_num) (min_le_left 1 _)⟩

/-- Diversity lies in `[0,1]`. -/
theorem evaluate_diversity_bounds (content : Text) :
    0 ≤ evaluate_diversity content ∧ evaluate_diversity content ≤ 1 := by
  unfold evaluate_diversity
  apply clamp01
  refine add_nonneg (add_nonneg (add_nonneg ?_ ?_) ?_) ?_
  · apply ite_nonneg _ le_rfl
    positivity
  · apply ite_nonneg _ le_rfl
    refine mul_nonneg ((clamp01 ?_).1) (by norm_num)
    refine mul_nonneg (ite_nonneg ?_ le_rfl) (by norm_num)
    refine div_nonneg (div_nonneg ?_ (by positivity)) (by positivity)
    apply List.sum_nonneg
    intro x hx
    obtain ⟨q, -, rfl⟩ := List.mem_map.mp hx
    positivity
  · positivity
  · positivity

/-- Each default metric weight is positive. -/
theorem metricWeight_pos (m : Metric) : 0 < metricWeight m := by
  cases m <;> norm_num [metricWeight]

/-- Every entry of the `scores` dict lies in `[0,1]`. -/
theorem scoresList_bounds (cfg : EvaluatorConfig) (c : DataChunk) :
    ∀ p ∈ scoresList cfg c, 0 ≤ p.2 ∧ p.2 ≤ 1 := by
  intro p hp
  simp only [scoresList, List.mem_append] at hp
  rcases hp with ((hp | hp) | hp) | hp <;>
  · split at hp
    · rw [List.mem_singleton] at hp
      subst hp
      first
        | exact evaluate_completeness_bounds c.content c.extra_data
        | exact evaluate_relevance_bounds c.content
        | exact evaluate_consistency_bounds c.content
        | exact evaluate_diversity_bounds c.content
    · exact absurd hp (List.not_mem_nil p)

/-- The renormalised weighted sum of `[0,1]` scores lies in `[0,1]`. -/
theorem calculate_overall_score_bounds (scores : List (Metric × ℚ))
    (h : ∀ p ∈ scores, 0 ≤ p.2 ∧ p.2 ≤ 1) :
    0 ≤ calculate_overall_score scores ∧ calculate_overall_score scores ≤ 1 := by
  unfold calculate_overall_score
  have hS : (0:ℚ) ≤ (scores.map fun p => p.2 * metricWeight p.1).sum := by
    apply List.sum_nonneg
    intro x hx
    obtain ⟨p, hp, rfl⟩ := List.mem_map.mp hx
    exact mul_nonneg (h p hp).1 (metricWeight_pos p.1).le
  have hSW : (scores.map fun p => p.2 * metricWeight p.1).sum ≤
      (scores.map fun p => metricWeight p.1).sum := by
    apply List.sum_le_sum
    intro p hp
    calc p.2 * metricWeight p.1 ≤ 1 * metricWeight p.1 :=
      mul_le_mul_of_nonneg_right (h p hp).2 (metricWeight_pos p.1).le
    _ = metricWeight p.1 := one_mul _
  dsimp only
  split
  · next hW =>
    exact ⟨div_nonneg hS (le_of_lt hW), (div_le_one hW).mpr hSW⟩
  · exact ⟨le_refl 0, by norm_num⟩

/-- C5: for every content string each of the four sub-scores lies in
`[0,1]`, and for every chunk and metric configuration the overall score —
the weighted sum renormalised by the total active weight — lies in `[0,1]`
as well. -/
theorem claim_C5_score_bounds (content : Text) (extra : ExtraData) (cfg : EvaluatorConfig)
    (c : DataChunk) :
    (0 ≤ evaluate_completeness content extra ∧ evaluate_completeness content extra ≤ 1) ∧
    (0 ≤ evaluate_relevance content ∧ evaluate_relevance content ≤ 1) ∧
    (0 ≤ evaluate_consistency content ∧ evaluate_consistency content ≤ 1) ∧
    (0 ≤ evaluate_diversity content ∧ evaluate_diversity content ≤ 1) ∧
    (0 ≤ calculate_overall_score (scoresList cfg c) ∧
      calculate_overall_score (scoresList cfg c) ≤ 1) ∧
    (0 ≤ (evaluate_quality cfg c).overall_score ∧ (evaluate_quality cfg c).overall_score ≤ 1) :=
  ⟨evaluate_completeness_bounds content extra,
   evaluate_relevance_bounds content,
   evaluate_consistency_bounds content,
   evaluate_diversity_bounds content,
   calculate_overall_score_bounds _ (scoresList_bounds cfg c),
   calculate_overall_score_bounds _ (scoresList_bounds cfg c)⟩

/-!
## Quality filtering (C9)
-/

/-- The accumulate-by-append loop of `filter_by_quality` is a filter. -/
theorem filter_by_quality_loop (m : ℚ) (chunks : List DataChunk) (acc : List DataChunk) :
    chunks.foldl (fun acc c =>
      match c.extra_data.quality_score with
      | some q => if m ≤ q.overall_score then acc ++ [c] else acc
      | none => acc) acc =
    acc ++ chunks.filter (fun c =>
      match c.extra_data.quality_score with
      | some q => decide (m ≤ q.overall_score)
      | none => false) := by
  induction chunks generalizing acc with
  | nil => simp
  | cons c rest ih =>
    simp only [List.foldl_cons, List.filter_cons]
    rcases hq : c.extra_data.quality_score with _ | q
    · simp only [hq]
      exact ih acc
    · by_cases hm : m ≤ q.overall_score
      · simp only [hq, if_pos hm, decide_eq_true hm, ih (acc ++ [c])]
        simp
      · simp only [hq, if_neg hm, decide_eq_false hm, ih acc]
        simp

/-- C9: `filter_by_quality` returns exactly the order-preserving
sub-sequence of chunks carrying a quality score whose overall value is at
least the threshold (chunks without a score are dropped), with the
threshold defaulting to the configured `min_quality_score`, itself 0.7 by
default. -/
theorem claim_C9_filter_by_quality (cfg : EvaluatorConfig) (chunks : List DataChunk)
    (ms : Option ℚ) :
    filter_by_quality cfg chunks ms =
      chunks.filter (fun c =>
        match c.extra_data.quality_score with
        | some q => decide (ms.getD cfg.min_quality_score ≤ q.overall_score)
        | none => false) ∧
    List.Sublist (filter_by_quality cfg chunks ms) chunks ∧
    filter_by_quality cfg chunks none = filter_by_quality cfg chunks (some cfg.min_quality_score) ∧
    ({} : EvaluatorConfig).min_quality_score = 7/10 := by
  have he := filter_by_quality_loop (ms.getD cfg.min_quality_score) chunks []
  have he' : filter_by_quality cfg chunks ms =
      chunks.filter (fun c =>
        match c.extra_data.quality_score with
        | some q => decide (ms.getD cfg.min_quality_score ≤ q.overall_score)
        | none => false) := by
    unfold filter_by_quality
    rw [he]
    simp
  refine ⟨he', ?_, rfl, rfl⟩
  rw [he']
  exact List.filter_sublist chunks

/-!
## The missing `parallel_processing` attribute (C10)
-/

/-- C10: `PipelineConfig` defines no `parallel_processing` attribute, yet
`_process_batches` reads it whenever `max_workers > 1` (before any chunk is
touched and regardless of the stage — the parallel branch is unreachable),
and `get_processing_report` reads it unconditionally; `process_files`
converts the raised `AttributeError` into a `success=False` result carrying
the exception text whenever any chunks were parsed and the Cleaner stage is
enabled. -/
theorem claim_C10_parallel_processing_bug :
    ("parallel_processing" ∉ pipelineConfigAttrs) ∧
    (∀ (σ : Type) (pc : PipelineConfig) (sk : SkillRun σ) (s : σ) (chunks : List DataChunk),
      1 < pc.max_workers →
      process_batches pc sk s chunks = Except.error (PyError.attributeError "parallel_processing")) ∧
    (∀ pc : PipelineConfig,
      get_processing_report pc = Except.error (PyError.attributeError "parallel_processing")) ∧
    (∀ (env : PipelineEnv) (chunks : List DataChunk),
      1 < env.pc.max_workers → chunks ≠ [] → env.pc.cleaner_enabled = true →
      (process_files_model env chunks).success = false ∧
      (process_files_model env chunks).error_message =
        some "'PipelineConfig' object has no attribute 'parallel_processing'") := by
  refine ⟨by decide, ?_, fun pc => rfl, ?_⟩
  · intro σ pc sk s chunks hw
    unfold process_batches
    rw [if_pos hw]
  · intro env chunks hw hne hcl
    have hlist : pipelineSkillList env = cleanerSkill env.ccfg ::
        ((if env.pc.enhancer_enabled = true then [enhancerSkill env.ecfg env.oracle] else []) ++
         (if env.pc.evaluator_enabled = true then [evaluatorSkill env.vcfg] else [])) := by
      unfold pipelineSkillList
      rw [hcl]
      simp
    have hpc : process_chunks env {} chunks =
        Except.error (PyError.attributeError "parallel_processing") := by
      unfold process_chunks
      rw [hlist]
      rw [List.foldlM_cons]
      have hb : process_batches env.pc (cleanerSkill env.ccfg) ({} : PipeState) chunks =
          Except.error (PyError.attributeError "parallel_processing") := by
        unfold process_batches
        rw [if_pos hw]
      rw [hb]
      rfl
    unfold process_files_model
    rw [if_pos hne, hpc]
    exact ⟨rfl, rfl⟩

/-- Witness for C10 at the default configuration (`max_workers = 4`) with a
one-chunk input. -/
theorem claim_C10_witness :
    process_batches ({} : PipelineConfig) (cleanerSkill {}) ({} : PipeState) [chunkA] =
      Except.error (PyError.attributeError "parallel_processing") ∧
    (process_files_model envDefault [chunkA]).success = false := by
  constructor
  · exact claim_C10_parallel_processing_bug.2.1 PipeState {} (cleanerSkill {}) {} [chunkA]
      (by decide)
  · exact (claim_C10_parallel_processing_bug.2.2.2 envDefault [chunkA] (by decide)
      (by simp) rfl).1

/-!
## QA pairs in the final dataset (C4)
-/

/-- The QA-assembly loop is a bind over the stored pairs. -/
theorem assemble_qa_pairs_loop (chunks : List DataChunk) (acc : List QAData) :
    chunks.foldl (fun acc c =>
      match c.extra_data.generated_qa with
      | some l => acc ++ l.map qaFromStored
      | none => acc) acc =
    acc ++ chunks.flatMap (fun c => (c.extra_data.generated_qa.getD []).map qaFromStored) := by
  induction chunks generalizing acc with
  | nil => simp
  | cons c rest ih =>
    simp only [List.foldl_cons, List.flatMap_cons]
    rcases hq : c.extra_data.generated_qa with _ | l
    · simp only [hq, Option.getD_none, List.map_nil, List.nil_append]
      exact ih acc
    · simp only [hq, Option.getD_some, ih (acc ++ l.map qaFromStored), List.append_assoc]

/-- C4 counterexample: on a chunk with one unit-suffixed number, the
Enhancer deterministically generates exactly one QA pair with confidence
0.7, context and domain set — but the pair that reaches the assembled
dataset has `confidence = context = domain = None` (only question and
answer survive the `generated_qa` storage), so the dataset pair is not a
verbatim copy of the generated `QAData`. -/
theorem claim_C4_counterexample :
    (match generate_qa_pairs oracle0 qaGenChunk with
      | Except.ok l => l.map (fun qa => (qa.confidence, qa.domain))
      | Except.error _ => []) = [(some (7/10), some "数据".toList)] ∧
    (assemble_qa_pairs [enhancer_process_single {} oracle0 qaGenChunk]).map
      (fun qa => (qa.confidence, qa.domain)) = [(none, none)] ∧
    (assemble_qa_pairs [enhancer_process_single {} oracle0 qaGenChunk]).map (·.question) =
      (match generate_qa_pairs oracle0 qaGenChunk with
        | Except.ok l => l.map (·.question)
        | Except.error _ => []) :=
  ⟨rfl, rfl, rfl⟩

/-- C4 amended: for every chunk list, the assembled dataset's QA pairs are,
in order, exactly the stored `generated_qa` entries with their questions and
answers copied verbatim, and every assembled pair has `None` context,
difficulty, domain and confidence; and the Enhancer stores under
`generated_qa` exactly the question/answer projections of the pairs it
generated. -/
theorem claim_C4_amended (chunks : List DataChunk) (cfg : EnhancerConfig) (or : Oracle)
    (c : DataChunk) (qas : List QAData)
    (hq : cfg.enable_qa_generation = true) (hv : validate_input c = true)
    (hterm : cfg.enable_term_extraction = false ∨ extract_terms c.content c.language = [])
    (hgen : generate_qa_pairs or c = Except.ok qas) (hne : qas ≠ []) :
    ((assemble_qa_pairs chunks).map (fun qa => (qa.question, qa.answer)) =
      chunks.flatMap (fun c => c.extra_data.generated_qa.getD [])) ∧
    (∀ qa ∈ assemble_qa_pairs chunks,
      qa.context = none ∧ qa.difficulty = none ∧ qa.domain = none ∧ qa.confidence = none) ∧
    ((enhancer_process_single cfg or c).extra_data.generated_qa =
      some (qas.map (fun q => (q.question, q.answer)))) := by
  have hassemble : assemble_qa_pairs chunks =
      chunks.flatMap (fun c => (c.extra_data.generated_qa.getD []).map qaFromStored) := by
    unfold assemble_qa_pairs
    rw [assemble_qa_pairs_loop chunks []]
    simp
  refine ⟨?_, ?_, ?_⟩
  · rw [hassemble, List.map_flatMap]
    apply congrArg
    funext d
    rw [List.map_map]
    have : ((fun qa => (qa.question, qa.answer)) ∘ qaFromStored) = id := by
      funext p
      rfl
    rw [this, List.map_id]
  · intro qa hqa
    rw [hassemble] at hqa
    obtain ⟨d, -, hqa⟩ := List.mem_flatMap.mp hqa
    obtain ⟨p, -, rfl⟩ := List.mem_map.mp hqa
    exact ⟨rfl, rfl, rfl, rfl⟩
  · unfold enhancer_process_single
    rw [if_neg (by simp [hv])]
    rcases hterm with ht | ht <;>
    · simp only [ht, hq, Bool.false_eq_true, if_false, if_true, ne_eq, not_true_eq_false,
        ite_self]
      rw [hgen]
      simp only [hq, hne, ne_eq, not_false_iff, and_true, true_and, if_pos, if_true]
      repeat' split
      all_goals rfl

/-- Witness for C4 amended at the concrete `qaGenChunk` run. -/
theorem claim_C4_amended_witness :
    (enhancer_process_single {} oracle0 qaGenChunk).extra_data.generated_qa =
      some (qaGenPairs.map (fun q => (q.question, q.answer))) :=
  (claim_C4_amended [] {} oracle0 qaGenChunk qaGenPairs rfl (by decide)
    (Or.inr rfl) rfl (by decide)).2.2

/-!
## History append-only (C8)
-/

/-- The Cleaner's `process_single` only ever appends to the history. -/
theorem cleaner_ps_only_appends (cfg : CleanerConfig) (st : CleanerState) (c : DataChunk) :
    c.process_metadata <+: ((cleaner_process_single cfg st c).2).process_metadata := by
  unfold cleaner_process_single
  dsimp only
  repeat' split
  all_goals try simp only [DataChunk.add_process_metadata]
  all_goals first
    | exact List.prefix_rfl
    | exact List.prefix_append _ _

/-- The Enhancer's `process_single` only ever appends to the history. -/
theorem enhancer_ps_only_appends (cfg : EnhancerConfig) (or : Oracle) (c : DataChunk) :
    c.process_metadata <+: (enhancer_process_single cfg or c).process_metadata := by
  unfold enhancer_process_single
  dsimp only
  repeat' split
  all_goals try simp only [DataChunk.add_process_metadata]
  all_goals first
    | exact List.prefix_rfl
    | exact List.prefix_append _ _

/-- The Evaluator's `process_single` never touches the history. -/
theorem evaluator_ps_only_appends (cfg : EvaluatorConfig) (c : DataChunk) :
    c.process_metadata <+: (evaluator_process_single cfg c).process_metadata := by
  unfold evaluator_process_single
  dsimp only
  repeat' split
  all_goals exact List.prefix_rfl

/-- `process_batch` under a stage whose step always succeeds and only
appends: every output history extends the input history as a strict
prefix. -/
theorem process_batch_history_growth {σ : Type} (sk : SkillRun σ)
    (hok : ∀ s c, ∃ c', (sk.step s c).2 = Except.ok c' ∧
      c.process_metadata <+: c'.process_metadata)
    (s : σ) (chunks : List DataChunk) (i : Nat) (hi : i < chunks.length) :
    (chunks.getD i {}).process_metadata <+:
      ((process_batch sk s chunks).2.getD i {}).process_metadata ∧
    (chunks.getD i {}).process_metadata.length <
      ((process_batch sk s chunks).2.getD i {}).process_metadata.length := by
  obtain ⟨c', hstep, hpre⟩ := hok (state_at sk s chunks i) (chunks.getD i {})
  rw [(process_batch_pointwise sk s chunks i hi).1 c' hstep]
  constructor
  · exact hpre.trans (List.prefix_append _ _)
  · have := hpre.length_le
    simp only [DataChunk.add_process_metadata, List.length_append, List.length_cons,
      List.length_nil]
    omega

/-- C8: for each stage (Cleaner, Enhancer, Evaluator), `process_single`
leaves the pre-transform history as a prefix of the post-transform history
(records are only appended, never reordered, truncated or modified), and
after `process_batch` every chunk's history extends its input history as a
strict prefix (strictly longer by the COMPLETED/FAILED record). -/
theorem claim_C8_history_append_only :
    (∀ (cfg : CleanerConfig) (st : CleanerState) (c : DataChunk),
      c.process_metadata <+: ((cleaner_process_single cfg st c).2).process_metadata) ∧
    (∀ (cfg : EnhancerConfig) (or : Oracle) (c : DataChunk),
      c.process_metadata <+: (enhancer_process_single cfg or c).process_metadata) ∧
    (∀ (cfg : EvaluatorConfig) (c : DataChunk),
      c.process_metadata <+: (evaluator_process_single cfg c).process_metadata) ∧
    (∀ (cfg : CleanerConfig) (ps : PipeState) (chunks : List DataChunk) (i : Nat),
      i < chunks.length →
      (chunks.getD i {}).process_metadata <+:
        ((process_batch (cleanerSkill cfg) ps chunks).2.getD i {}).process_metadata ∧
      (chunks.getD i {}).process_metadata.length <
        ((process_batch (cleanerSkill cfg) ps chunks).2.getD i {}).process_metadata.length) ∧
    (∀ (cfg : EnhancerConfig) (or : Oracle) (ps : PipeState) (chunks : List DataChunk) (i : Nat),
      i < chunks.length →
      (chunks.getD i {}).process_metadata <+:
        ((process_batch (enhancerSkill cfg or) ps chunks).2.getD i {}).process_metadata ∧
      (chunks.getD i {}).process_metadata.length <
        ((process_batch (enhancerSkill cfg or) ps chunks).2.getD i {}).process_metadata.length) ∧
    (∀ (cfg : EvaluatorConfig) (ps : PipeState) (chunks : List DataChunk) (i : Nat),
      i < chunks.length →
      (chunks.getD i {}).process_metadata <+:
        ((process_batch (evaluatorSkill cfg) ps chunks).2.getD i {}).process_metadata ∧
      (chunks.getD i {}).process_metadata.length <
        ((process_batch (evaluatorSkill cfg) ps chunks).2.getD i {}).process_metadata.length) := by
  refine ⟨cleaner_ps_only_appends, enhancer_ps_only_appends, evaluator_ps_only_appends,
    ?_, ?_, ?_⟩
  · intro cfg ps chunks i hi
    exact process_batch_history_growth (cleanerSkill cfg)
      (fun s c => ⟨(cleaner_process_single cfg s.cleaner c).2, rfl,
        cleaner_ps_only_appends cfg s.cleaner c⟩) ps chunks i hi
  · intro cfg or ps chunks i hi
    exact process_batch_history_growth (enhancerSkill cfg or)
      (fun s c => ⟨enhancer_process_single cfg or c, rfl,
        enhancer_ps_only_appends cfg or c⟩) ps chunks i hi
  · intro cfg ps chunks i hi
    exact process_batch_history_growth (evaluatorSkill cfg)
      (fun s c => ⟨evaluator_process_single cfg c, rfl,
        evaluator_ps_only_appends cfg c⟩) ps chunks i hi

/-- Witness for C8 at a concrete one-chunk batch of each stage. -/
theorem claim_C8_witness :
    chunkA.process_metadata.length <
      ((process_batch (cleanerSkill {}) ({} : PipeState) [chunkA]).2.getD 0 {}).process_metadata.length ∧
    chunkA.process_metadata.length <
      ((process_batch (enhancerSkill {} oracle0) ({} : PipeState) [chunkA]).2.getD 0 {}).process_metadata.length ∧
    chunkA.process_metadata.length <
      ((process_batch (evaluatorSkill {}) ({} : PipeState) [chunkA]).2.getD 0 {}).process_metadata.length :=
  ⟨(claim_C8_history_append_only.2.2.2.1 {} {} [chunkA] 0 (by decide)).2,
   (claim_C8_history_append_only.2.2.2.2.1 {} oracle0 {} [chunkA] 0 (by decide)).2,
   (claim_C8_history_append_only.2.2.2.2.2 {} {} [chunkA] 0 (by decide)).2⟩

/-!
## Relevance monotonicity (C6)

Appending domain keywords (space-separated) to a text cannot decrease any
of the three relevance components.
-/

/-- A space is in neither token class. -/
theorem charKind_space : charKind ' ' = none := rfl

/-- A CJK character heads a CJK token. -/
theorem charKind_of_cjk {c : Char} (h : isCJK c = true) : charKind c = some true := by
  unfold charKind
  rw [if_pos h]

/-- Unfolding the tokeniser at an unclassified head. -/
theorem cjkLatinTokens_cons_none {c : Char} (h : charKind c = none) (cs : Text) :
    cjkLatinTokens (c :: cs) = cjkLatinTokens cs := by
  rw [cjkLatinTokens, h]

/-- Unfolding the tokeniser at a classified singleton. -/
theorem cjkLatinTokens_singleton {c : Char} {k : Bool} (h : charKind c = some k) :
    cjkLatinTokens [c] = [[c]] := by
  rw [cjkLatinTokens, h]

/-- Unfolding the tokeniser when the next character continues the token. -/
theorem cjkLatinTokens_cons_matching {c c' : Char} {k : Bool} (h : charKind c = some k)
    (h' : charKind c' = some k) (cs : Text) :
    cjkLatinTokens (c :: c' :: cs) =
      (match cjkLatinTokens (c' :: cs) with
        | [] => [[c]]
        | t :: ts => (c :: t) :: ts) := by
  rw [cjkLatinTokens, h]
  dsimp only
  rw [if_pos h']

/-- Unfolding the tokeniser when the next character breaks the token. -/
theorem cjkLatinTokens_cons_breaking {c c' : Char} {k : Bool} (h : charKind c = some k)
    (h' : ¬ charKind c' = some k) (cs : Text) :
    cjkLatinTokens (c :: c' :: cs) = [c] :: cjkLatinTokens (c' :: cs) := by
  rw [cjkLatinTokens, h]
  dsimp only
  rw [if_neg h']

/-- Tokenising from a classified head yields a first token starting with
that head. -/
theorem cjkLatinTokens_cons_head {c : Char} {k : Bool} (hc : charKind c = some k)
    (cs : Text) : ∃ tl ts, cjkLatinTokens (c :: cs) = (c :: tl) :: ts := by
  cases cs with
  | nil => exact ⟨[], [], cjkLatinTokens_singleton hc⟩
  | cons c' cs' =>
    by_cases h' : charKind c' = some k
    · rw [cjkLatinTokens_cons_matching hc h' cs']
      rcases hT : cjkLatinTokens (c' :: cs') with _ | ⟨u, us⟩
      · exact ⟨[], [], rfl⟩
      · exact ⟨u, us, rfl⟩
    · rw [cjkLatinTokens_cons_breaking hc h' cs']
      exact ⟨[], cjkLatinTokens (c' :: cs'), rfl⟩

/-- Splitting the tokeniser at an unclassified separator. -/
theorem cjkLatinTokens_append_sep {sep : Char} (hsep : charKind sep = none) :
    ∀ (a b : Text), cjkLatinTokens (a ++ sep :: b) = cjkLatinTokens a ++ cjkLatinTokens b := by
  intro a
  induction a with
  | nil =>
    intro b
    rw [List.nil_append, cjkLatinTokens_cons_none hsep b]
    rfl
  | cons c a' ih =>
    intro b
    rcases hk : charKind c with _ | k
    · rw [List.cons_append, cjkLatinTokens_cons_none hk (a' ++ sep :: b),
        cjkLatinTokens_cons_none hk a', ih b]
    · cases a' with
      | nil =>
        have hne : ¬ charKind sep = some k := by rw [hsep]; exact Option.noConfusion
        rw [List.cons_append, List.nil_append, cjkLatinTokens_cons_breaking hk hne b,
          cjkLatinTokens_cons_none hsep b, cjkLatinTokens_singleton hk]
        rfl
      | cons c' a'' =>
        by_cases h' : charKind c' = some k
        · obtain ⟨tl, ts, hT⟩ := cjkLatinTokens_cons_head h' a''
          obtain ⟨tl2, ts2, hT2⟩ := cjkLatinTokens_cons_head h' (a'' ++ sep :: b)
          have hIH : cjkLatinTokens (c' :: a'' ++ sep :: b) =
              cjkLatinTokens (c' :: a'') ++ cjkLatinTokens b := ih b
          simp only [List.cons_append] at hIH
          rw [hT, hT2] at hIH
          have hstep : cjkLatinTokens (c :: c' :: (a'' ++ sep :: b)) =
              (c :: c' :: tl2) :: ts2 := by
            rw [cjkLatinTokens_cons_matching hk h' (a'' ++ sep :: b), hT2]
          have hstep2 : cjkLatinTokens (c :: c' :: a'') = (c :: c' :: tl) :: ts := by
            rw [cjkLatinTokens_cons_matching hk h' a'', hT]
          rw [show (c :: (c' :: a'')) ++ sep :: b = c :: c' :: (a'' ++ sep :: b) from rfl,
            hstep, hstep2]
          cases hIH
          rfl
        · have hstep : cjkLatinTokens (c :: c' :: (a'' ++ sep :: b)) =
              [c] :: cjkLatinTokens (c' :: (a'' ++ sep :: b)) :=
            cjkLatinTokens_cons_breaking hk h' (a'' ++ sep :: b)
          have hIH : cjkLatinTokens (c' :: a'' ++ sep :: b) =
              cjkLatinTokens (c' :: a'') ++ cjkLatinTokens b := ih b
          simp only [List.cons_append] at hIH
          rw [show (c :: (c' :: a'')) ++ sep :: b = c :: c' :: (a'' ++ sep :: b) from rfl,
            hstep, cjkLatinTokens_cons_breaking hk h' a'', hIH]
          rfl

/-- A non-empty all-CJK text is a single token. -/
theorem cjkLatinTokens_pure_cjk : ∀ (kw : Text), kw ≠ [] → (∀ c ∈ kw, isCJK c = true) →
    cjkLatinTokens kw = [kw] := by
  intro kw
  induction kw with
  | nil => intro h; exact absurd rfl h
  | cons c cs ih =>
    intro _ h
    have hc : charKind c = some true := charKind_of_cjk (h c (List.mem_cons_self c cs))
    cases cs with
    | nil => exact cjkLatinTokens_singleton hc
    | cons c' cs' =>
      have hc' : charKind c' = some true :=
        charKind_of_cjk (h c' (List.mem_cons_of_mem c (List.mem_cons_self c' cs')))
      have hT : cjkLatinTokens (c' :: cs') = [c' :: cs'] :=
        ih (by simp) (fun d hd => h d (List.mem_cons_of_mem c hd))
      rw [cjkLatinTokens_cons_matching hc hc' cs', hT]


/-! ### Claim C6: relevance monotonicity under appended keywords -/

/-- An infix of a list is an infix of any right-extension of it. -/
theorem isInfix_append_right {n t : Text} (s : Text) (h : n <:+: t) : n <:+: t ++ s := by
  obtain ⟨a, b, hab⟩ := h
  exact ⟨a, b ++ s, by rw [← hab]; simp [List.append_assoc]⟩

/-- Substring containment survives appending on the right. -/
theorem pyContains_append {t n : Text} (s : Text) (h : pyContains t n = true) :
    pyContains (t ++ s) n = true := by
  simp only [pyContains, decide_eq_true_iff] at h ⊢
  exact isInfix_append_right s h

/-- Appending keywords with space separators extends the text on the right. -/
theorem withAppendedKeywords_eq_append : ∀ (kws : List Text) (t : Text),
    ∃ s, withAppendedKeywords t kws = t ++ s := by
  intro kws
  induction kws with
  | nil => intro t; exact ⟨[], (List.append_nil t).symm⟩
  | cons kw kws ih =>
    intro t
    obtain ⟨s, hs⟩ := ih (t ++ ' ' :: kw)
    refine ⟨' ' :: kw ++ s, ?_⟩
    have hstep : withAppendedKeywords t (kw :: kws) =
        withAppendedKeywords (t ++ ' ' :: kw) kws := rfl
    rw [hstep, hs, List.append_assoc]

/-- Every hydro keyword is a non-empty run of CJK ideographs. -/
theorem hydro_keywords_cjk :
    ∀ kw ∈ hydro_keywords, kw ≠ [] ∧ ∀ c ∈ kw, isCJK c = true := by decide

/-- The tokeniser splits an appended space-separated keyword list off as
whole tokens. -/
theorem cjkLatinTokens_withAppendedKeywords :
    ∀ (kws : List Text) (t : Text),
    (∀ kw ∈ kws, kw ≠ [] ∧ ∀ c ∈ kw, isCJK c = true) →
    cjkLatinTokens (withAppendedKeywords t kws) = cjkLatinTokens t ++ kws := by
  intro kws
  induction kws with
  | nil => intro t _; simp [withAppendedKeywords]
  | cons kw kws ih =>
    intro t h
    have hkw := h kw (List.mem_cons_self kw kws)
    have hstep : withAppendedKeywords t (kw :: kws) =
        withAppendedKeywords (t ++ ' ' :: kw) kws := rfl
    rw [hstep, ih (t ++ ' ' :: kw) (fun k hk => h k (List.mem_cons_of_mem kw hk)),
      cjkLatinTokens_append_sep charKind_space t kw,
      cjkLatinTokens_pure_cjk kw hkw.1 hkw.2]
    simp

/-- A member of the keyword set is itself a hydro word. -/
theorem is_hydro_word_of_mem {kw : Text} (h : kw ∈ hydro_keywords) :
    is_hydro_word kw = true := by
  simp only [is_hydro_word, List.any_eq_true]
  refine ⟨kw, h, ?_⟩
  simp only [Bool.or_eq_true, pyContains, decide_eq_true_iff]
  exact Or.inl ⟨[], [], by simp⟩

/-- Adding the same count to numerator and denominator does not decrease a
subunit ratio. -/
theorem ratio_add_le (a n k : ℕ) (hle : a ≤ n) :
    (a : ℚ) / (n : ℚ) ≤ ((a : ℚ) + (k : ℚ)) / ((n : ℚ) + (k : ℚ)) := by
  rcases Nat.eq_zero_or_pos n with hn | hn
  · have h0 : a = 0 := Nat.le_zero.mp (hn ▸ hle)
    subst h0; subst hn
    simp only [Nat.cast_zero, zero_div, zero_add]
    positivity
  · have hn' : (0:ℚ) < (n : ℚ) := by exact_mod_cast hn
    have hnk : (0:ℚ) < (n : ℚ) + (k : ℚ) := by positivity
    rw [div_le_div_iff₀ hn' hnk]
    have hk : (0:ℚ) ≤ (k : ℚ) := Nat.cast_nonneg k
    have han : (a:ℚ) ≤ (n:ℚ) := by exact_mod_cast hle
    nlinarith

/-- C6: appending any further keywords from the evaluator's fixed hydro
keyword set to a text, space-separated, never decreases the relevance
sub-score: the keyword-coverage count, the hydro-word token ratio and the
matched domain-pattern count are each monotone under the extension. -/
theorem claim_C6_relevance_monotone (t : Text) (kws : List Text)
    (h : ∀ kw ∈ kws, kw ∈ hydro_keywords) :
    evaluate_relevance t ≤ evaluate_relevance (withAppendedKeywords t kws) := by
  obtain ⟨s, hs⟩ := withAppendedKeywords_eq_append kws t
  have hcjk : ∀ kw ∈ kws, kw ≠ [] ∧ ∀ c ∈ kw, isCJK c = true :=
    fun kw hk => hydro_keywords_cjk kw (h kw hk)
  have htok : cjkLatinTokens (withAppendedKeywords t kws) = cjkLatinTokens t ++ kws :=
    cjkLatinTokens_withAppendedKeywords kws t hcjk
  unfold evaluate_relevance
  apply min_le_min le_rfl
  refine add_le_add (add_le_add ?_ ?_) ?_
  · apply mul_le_mul_of_nonneg_right _ (by norm_num : (0:ℚ) ≤ 4/10)
    rw [div_eq_mul_inv, div_eq_mul_inv]
    apply mul_le_mul_of_nonneg_right _ (inv_nonneg.mpr (Nat.cast_nonneg _))
    have hmono : (hydro_keywords.countP fun kw => pyContains (lowerText t) (lowerText kw)) ≤
        (hydro_keywords.countP fun kw =>
          pyContains (lowerText (withAppendedKeywords t kws)) (lowerText kw)) := by
      apply List.countP_mono_left
      intro kw _ hp
      rw [hs]
      have hmap : lowerText (t ++ s) = lowerText t ++ lowerText s := List.map_append _ _ _
      rw [hmap]
      exact pyContains_append _ hp
    exact_mod_cast hmono
  · rw [htok]
    by_cases hW : cjkLatinTokens t = []
    · rw [hW, List.nil_append, if_neg (by simp)]
      by_cases hk : kws = []
      · rw [if_neg (by simp [hk])]
      · rw [if_pos hk]
        exact mul_nonneg (le_min zero_le_one (by positivity)) (by norm_num)
    · have hW' : cjkLatinTokens t ++ kws ≠ [] := fun hc => hW (List.append_eq_nil.mp hc).1
      rw [if_pos hW, if_pos hW']
      have hcount : (cjkLatinTokens t ++ kws).countP is_hydro_word =
          (cjkLatinTokens t).countP is_hydro_word + kws.length := by
        rw [List.countP_append,
          List.countP_eq_length.mpr (fun kw hk => is_hydro_word_of_mem (h kw hk))]
      have hlen : (cjkLatinTokens t ++ kws).length =
          (cjkLatinTokens t).length + kws.length := List.length_append _ _
      rw [hcount, hlen]
      apply mul_le_mul_of_nonneg_right _ (by norm_num : (0:ℚ) ≤ 3/10)
      apply min_le_min le_rfl
      apply mul_le_mul_of_nonneg_right _ (by norm_num : (0:ℚ) ≤ 5)
      have hratio := ratio_add_le ((cjkLatinTokens t).countP is_hydro_word)
        (cjkLatinTokens t).length kws.length (List.countP_le_length _)
      push_cast
      exact_mod_cast hratio
  · apply mul_le_mul_of_nonneg_right _ (by norm_num : (0:ℚ) ≤ 3/10)
    apply mul_le_mul_of_nonneg_right _ (by norm_num : (0:ℚ) ≤ 25/100)
    have hmono : (relevanceDomainPatterns.countP fun pats =>
          pats.any fun p => pyContains t p) ≤
        (relevanceDomainPatterns.countP fun pats =>
          pats.any fun p => pyContains (withAppendedKeywords t kws) p) := by
      apply List.countP_mono_left
      intro pats _ hp
      simp only [List.any_eq_true] at hp ⊢
      obtain ⟨p, hpmem, hpc⟩ := hp
      exact ⟨p, hpmem, by rw [hs]; exact pyContains_append _ hpc⟩
    exact_mod_cast hmono

/-- C6 witness: appending the keywords 水库 and 防洪 to the text 大坝监测
does not decrease its relevance sub-score. -/
theorem claim_C6_witness :
    (∀ kw ∈ (["水库", "防洪"].map String.toList), kw ∈ hydro_keywords) ∧
    evaluate_relevance "大坝监测".toList ≤
      evaluate_relevance
        (withAppendedKeywords "大坝监测".toList (["水库", "防洪"].map String.toList)) :=
  ⟨by decide,
   claim_C6_relevance_monotone "大坝监测".toList (["水库", "防洪"].map String.toList) (by decide)⟩


end OpenHydro
